import Mathlib

/-!
Verification development for the FileSorter repository (src/FileSorter.py).

The program classifies files by extension into user-defined categories,
relocates them into per-category subfolders under a chosen root, and prunes
folders left empty.  This file gives a shallow embedding of the
classification-and-relocation engine and proves the frozen claims about it.

Modelling conventions:
* Python strings are `PyStr := List Char`; string literals appear as
  `("...").data`.
* Python `str.lower` / `str.upper` / `str.strip` / `str.split` are embedded
  character by character for the ASCII fragment the program manipulates.
* `os.path` functions (`splitext`, `join`, `normpath`, `basename`,
  `dirname`) are embedded from CPython's posixpath implementation, which is
  what the program calls on Unix-family systems (the embedding fixes the
  posix branch of every `sys.platform` dispatch in the source).
* The on-disk filesystem is modelled two ways, matching what each piece of
  code observes: a flat set of existing paths (`Finset PyStr`) for
  `os.path.exists`-style queries in the move/collision code, and a mutual
  inductive directory tree (`DirTree`/`DirList`) for `os.walk`-based
  scanning and pruning.
-/

abbrev PyStr := List Char

/-- Embedding of the ASCII case mapping used by Python `str.lower` on one
character: letters `A`..`Z` (codes 65..90) map 32 codes up, everything else
is unchanged. -/
def py_lower_char (c : Char) : Char :=
  if 65 ≤ c.toNat ∧ c.toNat ≤ 90 then Char.ofNat (c.toNat + 32) else c

/-- Embedding of the ASCII case mapping used by Python `str.upper` on one
character: letters `a`..`z` (codes 97..122) map 32 codes down. -/
def py_upper_char (c : Char) : Char :=
  if 97 ≤ c.toNat ∧ c.toNat ≤ 122 then Char.ofNat (c.toNat - 32) else c

/-- Embedding of Python `str.lower` (ASCII fragment). -/
def py_lower (s : PyStr) : PyStr := s.map py_lower_char

/-- Embedding of Python `str.upper` (ASCII fragment). -/
def py_upper (s : PyStr) : PyStr := s.map py_upper_char

/-- Characters treated as whitespace by Python `str.strip` (ASCII fragment). -/
def py_is_space (c : Char) : Bool :=
  c == ' ' || c == '\t' || c == '\n' || c == '\x0d' || c == '\x0b' || c == '\x0c'

/-- Embedding of Python `str.strip` with no argument: remove leading and
trailing whitespace. -/
def py_strip (s : PyStr) : PyStr :=
  ((s.dropWhile py_is_space).reverse.dropWhile py_is_space).reverse

/-- Embedding of Python `str.split(sep)` for a one-character separator:
splits at every occurrence of `sep`, keeping empty pieces, and yields `[""]`
on the empty string. -/
def py_split (sep : Char) : PyStr → List PyStr
  | [] => [[]]
  | ch :: rest =>
    match py_split sep rest with
    | [] => [[]]
    | h :: t => if ch = sep then [] :: h :: t else (ch :: h) :: t

/-- Embedding of Python `str.rfind` for a one-character needle: the index of
the last occurrence of `c`, or `-1` when absent (as an `Int`, like Python). -/
def rfindZ : PyStr → Char → Int
  | [], _ => -1
  | a :: rest, c =>
    let r := rfindZ rest c
    if r ≥ 0 then r + 1 else if a = c then 0 else -1

/-- Embedding of CPython `posixpath.splitext` (via `genericpath._splitext`
with `sep = '/'`, no `altsep`, `extsep = '.'`): split off the extension at
the last dot of the final path component, unless every character of that
component before the dot is itself a dot (leading dots are not extension
separators). -/
def os_path_splitext (p : PyStr) : PyStr × PyStr :=
  let sepIndex := rfindZ p '/'
  let dotIndex := rfindZ p '.'
  if dotIndex > sepIndex then
    if ((p.drop (sepIndex + 1).toNat).take (dotIndex - sepIndex - 1).toNat).any
        (fun ch => ch != '.') then
      (p.take dotIndex.toNat, p.drop dotIndex.toNat)
    else (p, [])
  else (p, [])

/-- Embedding of CPython `posixpath.join` for two arguments. -/
def os_path_join (a b : PyStr) : PyStr :=
  if b.head? = some '/' then b
  else if a = [] ∨ a.getLast? = some '/' then a ++ b
  else a ++ '/' :: b

/-- Embedding of CPython `posixpath.basename`: everything after the last
slash. -/
def os_path_basename (p : PyStr) : PyStr :=
  p.drop (rfindZ p '/' + 1).toNat

/-- Embedding of CPython `posixpath.dirname`: everything before the last
slash, with trailing slashes stripped unless the head is all slashes. -/
def os_path_dirname (p : PyStr) : PyStr :=
  let head := p.take (rfindZ p '/' + 1).toNat
  if head ≠ [] ∧ head.any (fun ch => ch != '/') then
    (head.reverse.dropWhile (fun ch => ch == '/')).reverse
  else head

/-- Embedding of CPython `posixpath.normpath`: collapse repeated slashes and
`.` components, resolve `..` components against preceding real components,
and keep the POSIX special case of exactly two initial slashes. -/
def os_path_normpath (p : PyStr) : PyStr :=
  if p = [] then ['.']
  else
    let initialSlashes : Nat :=
      if ['/', '/'].isPrefixOf p ∧ ¬ (['/', '/', '/'].isPrefixOf p) then 2
      else if ['/'].isPrefixOf p then 1
      else 0
    let comps := py_split '/' p
    let newComps := comps.foldl
      (fun acc comp =>
        if comp = [] ∨ comp = ['.'] then acc
        else if comp ≠ ['.', '.'] ∨ (initialSlashes = 0 ∧ acc = []) ∨
            (acc ≠ [] ∧ acc.getLast? = some ['.', '.']) then acc ++ [comp]
        else if acc ≠ [] then acc.dropLast
        else acc)
      []
    let joined := (newComps.intersperse ['/']).flatten
    let res := List.replicate initialSlashes '/' ++ joined
    if res = [] then ['.'] else res

-- --- Constants (src/FileSorter.py line 109) ---

/-- Reserved sentinel token for extensionless files
(`NO_EXTENSION_KEYWORD = "no_extension"`). -/
def NO_EXTENSION_KEYWORD : PyStr := ("no_extension").data

/-- Embedding of `get_file_extension` (src/FileSorter.py lines 208-210):
`os.path.splitext` and lower-casing of the extension part (which keeps its
leading dot). -/
def get_file_extension (file_name : PyStr) : PyStr :=
  py_lower (os_path_splitext file_name).2

/-- Embedding of the extension-key derivation inlined in
`start_organization_command` (src/FileSorter.py lines 571-584): the
lower-cased extension without its dot, except that a missing extension, a
bare trailing dot (on a name not ending in `".."`), or an empty parsed key
is mapped to `NO_EXTENSION_KEYWORD`. -/
def extension_key (file_name : PyStr) : PyStr :=
  let extWithDot := get_file_extension file_name
  let key :=
    if extWithDot = [] ∨ (extWithDot = ['.'] ∧ ¬ (['.', '.'].isSuffixOf file_name)) then
      NO_EXTENSION_KEYWORD
    else py_lower (extWithDot.drop 1)
  if key = [] ∧ key ≠ NO_EXTENSION_KEYWORD then NO_EXTENSION_KEYWORD else key

/-- Category table: the shape of the global `custom_category_mappings`, a
Python dict (insertion-ordered, unique keys) from category name to a set of
extension tokens. -/
abbrev CatTable := List (PyStr × Finset PyStr)

/-- Embedding of the category lookup loop in `start_organization_command`
(src/FileSorter.py lines 586-589): the first category whose extension set
contains the key. -/
def classify_key (key : PyStr) (table : CatTable) : Option PyStr :=
  (table.find? (fun e => decide (key ∈ e.2))).map (fun e => e.1)

/-- Classification of a file name: derive the extension key, then look it up. -/
def classify_file (file_name : PyStr) (table : CatTable) : Option PyStr :=
  classify_key (extension_key file_name) table

-- --- Character-level lemmas ---

theorem char_toNat_ofNat_of_lt (n : Nat) (h : n < 55296) : (Char.ofNat n).toNat = n := by
  unfold Char.ofNat
  rw [dif_pos (Or.inl h)]
  rfl

theorem py_lower_char_toNat (c : Char) (h : 65 ≤ c.toNat ∧ c.toNat ≤ 90) :
    (py_lower_char c).toNat = c.toNat + 32 := by
  unfold py_lower_char
  rw [if_pos h]
  exact char_toNat_ofNat_of_lt _ (by omega)

theorem py_lower_char_not_upper (c : Char) :
    ¬ (65 ≤ (py_lower_char c).toNat ∧ (py_lower_char c).toNat ≤ 90) := by
  by_cases h : 65 ≤ c.toNat ∧ c.toNat ≤ 90
  · rw [py_lower_char_toNat c h]; omega
  · unfold py_lower_char; rw [if_neg h]; exact h

theorem py_lower_char_fixed (c : Char) (h : ¬ (65 ≤ c.toNat ∧ c.toNat ≤ 90)) :
    py_lower_char c = c := by
  unfold py_lower_char; rw [if_neg h]

theorem py_lower_char_idem (c : Char) :
    py_lower_char (py_lower_char c) = py_lower_char c :=
  py_lower_char_fixed _ (py_lower_char_not_upper c)

/-- A string is lower-case when Python `lower` leaves it unchanged. -/
def is_lower_str (s : PyStr) : Prop := py_lower s = s

theorem py_lower_idem (s : PyStr) : py_lower (py_lower s) = py_lower s := by
  unfold py_lower
  rw [List.map_map]
  exact List.map_congr_left (fun c _ => py_lower_char_idem c)

theorem is_lower_py_lower (s : PyStr) : is_lower_str (py_lower s) := py_lower_idem s

theorem py_lower_fixed_of_no_upper (s : PyStr)
    (h : ∀ c ∈ s, ¬ (65 ≤ c.toNat ∧ c.toNat ≤ 90)) : py_lower s = s := by
  unfold py_lower
  induction s with
  | nil => rfl
  | cons a rest ih =>
    rw [List.map_cons, py_lower_char_fixed a (h a (by simp)),
      ih (fun c hc => h c (by simp [hc]))]

theorem no_upper_of_mem_py_lower (s : PyStr) (c : Char) (hc : c ∈ py_lower s) :
    ¬ (65 ≤ c.toNat ∧ c.toNat ≤ 90) := by
  unfold py_lower at hc
  obtain ⟨a, _, rfl⟩ := List.mem_map.mp hc
  exact py_lower_char_not_upper a

-- --- rfindZ lemmas ---

theorem rfindZ_nil (c : Char) : rfindZ [] c = -1 := rfl

theorem rfindZ_cons (a : Char) (rest : PyStr) (c : Char) :
    rfindZ (a :: rest) c =
      if rfindZ rest c ≥ 0 then rfindZ rest c + 1 else if a = c then 0 else -1 := rfl

theorem rfindZ_ge_neg_one (p : PyStr) (c : Char) : -1 ≤ rfindZ p c := by
  induction p with
  | nil => rw [rfindZ_nil]
  | cons a rest ih =>
    rw [rfindZ_cons]
    split_ifs <;> omega


theorem rfindZ_lt_length (p : PyStr) (c : Char) : rfindZ p c < p.length := by
  induction p with
  | nil => rw [rfindZ_nil]; simp
  | cons a rest ih =>
    rw [rfindZ_cons, List.length_cons]
    push_cast
    split_ifs <;> omega

theorem rfindZ_eq_neg_one_of_not_mem (p : PyStr) (c : Char) (h : c ∉ p) :
    rfindZ p c = -1 := by
  induction p with
  | nil => rw [rfindZ_nil]
  | cons a rest ih =>
    simp only [List.mem_cons, not_or] at h
    rw [rfindZ_cons, ih h.2, if_neg (by omega), if_neg (fun hac => h.1 hac.symm)]

theorem rfindZ_append_single_eq (g : PyStr) (c : Char) (h : c ∉ g) :
    rfindZ (g ++ [c]) c = g.length := by
  induction g with
  | nil => simp [rfindZ_cons, rfindZ_nil]
  | cons a rest ih =>
    simp only [List.mem_cons, not_or] at h
    rw [List.cons_append, rfindZ_cons, ih h.2, if_pos (by omega), List.length_cons]
    push_cast
    omega

theorem rfindZ_append_single_ne (g : PyStr) (c d : Char) (hcd : c ≠ d) :
    rfindZ (g ++ [d]) c = rfindZ g c := by
  induction g with
  | nil =>
    rw [List.nil_append, rfindZ_cons, rfindZ_nil, if_neg (by omega),
      if_neg (fun hdc => hcd hdc.symm)]
  | cons a rest ih =>
    rw [List.cons_append, rfindZ_cons, ih, rfindZ_cons]

-- --- splitext and extension_key lemmas ---

theorem os_path_splitext_of_no_dot (f : PyStr) (h : '.' ∉ f) :
    os_path_splitext f = (f, []) := by
  unfold os_path_splitext
  rw [rfindZ_eq_neg_one_of_not_mem f '.' h,
    if_neg (by have := rfindZ_ge_neg_one f '/'; omega)]

theorem os_path_splitext_dotfile (rest : PyStr) (hnd : '.' ∉ rest) :
    os_path_splitext ('.' :: rest) = ('.' :: rest, []) := by
  unfold os_path_splitext
  have hdot : rfindZ ('.' :: rest) '.' = 0 := by
    rw [rfindZ_cons, rfindZ_eq_neg_one_of_not_mem rest '.' hnd, if_neg (by omega),
      if_pos rfl]
  rw [hdot]
  rcases le_or_lt 0 (rfindZ ('.' :: rest) '/') with hs | hs
  · rw [if_neg (by omega)]
  · have hm1 : rfindZ ('.' :: rest) '/' = -1 :=
      le_antisymm (by omega) (rfindZ_ge_neg_one _ _)
    rw [hm1, if_pos (by omega)]
    norm_num

theorem extension_key_pos (f : PyStr)
    (h : get_file_extension f = [] ∨
      (get_file_extension f = ['.'] ∧ ¬ (['.', '.'].isSuffixOf f = true))) :
    extension_key f = NO_EXTENSION_KEYWORD := by
  simp only [extension_key]
  rw [if_pos h, if_neg (by decide)]

theorem extension_key_neg (f : PyStr)
    (h : ¬ (get_file_extension f = [] ∨
      (get_file_extension f = ['.'] ∧ ¬ (['.', '.'].isSuffixOf f = true)))) :
    extension_key f =
      (if py_lower ((get_file_extension f).drop 1) = [] then NO_EXTENSION_KEYWORD
       else py_lower ((get_file_extension f).drop 1)) := by
  simp only [extension_key]
  rw [if_neg h]
  by_cases h2 : py_lower ((get_file_extension f).drop 1) = []
  · rw [if_pos ⟨h2, by rw [h2]; decide⟩, if_pos h2]
  · rw [if_neg (fun hc => h2 hc.1), if_neg h2]

theorem extension_key_of_splitext_empty (f : PyStr) (h : (os_path_splitext f).2 = []) :
    extension_key f = NO_EXTENSION_KEYWORD := by
  apply extension_key_pos
  left
  unfold get_file_extension
  rw [h]
  rfl

theorem not_dotdot_suffix (g : PyStr) (h : '.' ∉ g) :
    ¬ (['.', '.'].isSuffixOf (g ++ ['.']) = true) := by
  intro hs
  rw [List.isSuffixOf_iff_suffix] at hs
  obtain ⟨t, ht⟩ := hs
  have ht2 : (t ++ ['.']) ++ ['.'] = g ++ ['.'] := by
    rw [List.append_assoc]
    exact ht
  have h2 : t ++ ['.'] = g := by
    have := congrArg List.dropLast ht2
    simpa using this
  exact h (by rw [← h2]; simp)

theorem extension_key_trailing_dot (g : PyStr) (h : '.' ∉ g) :
    extension_key (g ++ ['.']) = NO_EXTENSION_KEYWORD := by
  have hdot : rfindZ (g ++ ['.']) '.' = g.length := rfindZ_append_single_eq g '.' h
  have hsep : rfindZ (g ++ ['.']) '/' = rfindZ g '/' :=
    rfindZ_append_single_ne g '/' '.' (by decide)
  have hlt : rfindZ g '/' < (g.length : Int) := rfindZ_lt_length g '/'
  by_cases hany : (((g ++ ['.']).drop (rfindZ g '/' + 1).toNat).take
      ((g.length : Int) - rfindZ g '/' - 1).toNat).any (fun ch => ch != '.') = true
  · have hsplit : os_path_splitext (g ++ ['.']) = (g, ['.']) := by
      unfold os_path_splitext
      rw [hdot, hsep, if_pos (by omega), if_pos hany]
      have htn : ((g.length : Int)).toNat = g.length := Int.toNat_natCast g.length
      rw [htn]
      rw [List.take_left, List.drop_left]
    apply extension_key_pos
    right
    constructor
    · unfold get_file_extension
      rw [hsplit]
      show py_lower ['.'] = ['.']
      decide
    · exact not_dotdot_suffix g h
  · have hsplit : os_path_splitext (g ++ ['.']) = (g ++ ['.'], []) := by
      unfold os_path_splitext
      rw [hdot, hsep, if_pos (by omega), if_neg hany]
    exact extension_key_of_splitext_empty _ (by rw [hsplit])

theorem extension_key_cases (f : PyStr) :
    extension_key f = NO_EXTENSION_KEYWORD ∨
    (extension_key f = py_lower ((get_file_extension f).drop 1) ∧ extension_key f ≠ []) := by
  by_cases h1 : (get_file_extension f = [] ∨
      (get_file_extension f = ['.'] ∧ ¬ (['.', '.'].isSuffixOf f = true)))
  · exact Or.inl (extension_key_pos f h1)
  · rw [extension_key_neg f h1]
    by_cases h2 : py_lower ((get_file_extension f).drop 1) = []
    · rw [if_pos h2]
      exact Or.inl rfl
    · rw [if_neg h2]
      exact Or.inr ⟨rfl, h2⟩

theorem extension_key_is_lower (f : PyStr) :
    py_lower (extension_key f) = extension_key f := by
  rcases extension_key_cases f with h | ⟨h, _⟩
  · rw [h]; decide
  · rw [h]; exact py_lower_idem _

theorem extension_key_ne_nil (f : PyStr) : extension_key f ≠ [] := by
  rcases extension_key_cases f with h | ⟨_, h⟩
  · rw [h]; decide
  · exact h

/-- C4: for every file name `f`, `extension_key f` is deterministic (it is a
pure function of `f`) and lower-cased, with
`extension_key "report.PDF" = "pdf"`; and when `f` has no dot, or its only
dot is a trailing character with nothing after it and `f` is not composed
solely of dots, the result is the reserved no-extension sentinel
`NO_EXTENSION_KEYWORD`, never the empty string. -/
theorem claim_c4_extension_key :
    (∀ f : PyStr, py_lower (extension_key f) = extension_key f)
    ∧ extension_key (("report.PDF").data) = ("pdf").data
    ∧ (∀ f : PyStr, '.' ∉ f → extension_key f = NO_EXTENSION_KEYWORD)
    ∧ (∀ g : PyStr, '.' ∉ g → g ≠ [] → extension_key (g ++ ['.']) = NO_EXTENSION_KEYWORD)
    ∧ (∀ f : PyStr, extension_key f ≠ []) :=
  ⟨extension_key_is_lower, by decide,
   fun f hf => extension_key_of_splitext_empty f
     (by rw [os_path_splitext_of_no_dot f hf]),
   fun g hg _ => extension_key_trailing_dot g hg,
   extension_key_ne_nil⟩

theorem claim_c4_extension_key_witness :
    extension_key (("hello").data) = NO_EXTENSION_KEYWORD ∧
    extension_key (("name.").data) = NO_EXTENSION_KEYWORD := by
  constructor
  · exact claim_c4_extension_key.2.2.1 (("hello").data) (by decide)
  · have h := claim_c4_extension_key.2.2.2.1 (("name").data) (by decide) (by decide)
    have he : ("name.").data = ("name").data ++ ['.'] := by decide
    rw [he]
    exact h

/-- C10: a file name beginning with a dot and containing no other dot (such
as ".bashrc") derives the reserved no-extension sentinel as its extension
key, so classification can only route it to the category owning the
sentinel token (or to no category), never to a category owning the text
after the leading dot. -/
theorem claim_c10_dotfile_sentinel (rest : PyStr) (hnd : '.' ∉ rest) :
    extension_key ('.' :: rest) = NO_EXTENSION_KEYWORD ∧
    ∀ (table : CatTable) (cat : PyStr), classify_file ('.' :: rest) table = some cat →
      ∃ exts, (cat, exts) ∈ table ∧ NO_EXTENSION_KEYWORD ∈ exts := by
  have hkey : extension_key ('.' :: rest) = NO_EXTENSION_KEYWORD :=
    extension_key_of_splitext_empty _ (by rw [os_path_splitext_dotfile rest hnd])
  refine ⟨hkey, fun table cat hcl => ?_⟩
  unfold classify_file classify_key at hcl
  rw [hkey] at hcl
  obtain ⟨e, he, hmap⟩ := Option.map_eq_some'.mp hcl
  have hpe := List.find?_some he
  have hmem := List.mem_of_find?_eq_some he
  rw [decide_eq_true_eq] at hpe
  exact ⟨e.2, by rw [← hmap]; exact (by simpa using hmem), hpe⟩

theorem claim_c10_dotfile_sentinel_witness :
    extension_key ((".bashrc").data) = NO_EXTENSION_KEYWORD := by
  have h := (claim_c10_dotfile_sentinel (("bashrc").data) (by decide)).1
  have he : (".bashrc").data = '.' :: ("bashrc").data := by decide
  rw [he]
  exact h

-- --- Configuration store (src/FileSorter.py lines 50-78) ---

/-- Abstract state of the configuration file read by
`load_custom_category_settings`: the file may be absent, present but
unparseable (JSON / IO / type errors), or present with a parsed mapping of
category name to a list of extension tokens. -/
inductive ConfigFile where
  | absent
  | corrupt
  | valid (mappings : List (PyStr × List PyStr))

/-- Default table installed when the configuration file does not exist
(src/FileSorter.py lines 64-69). -/
def default_categories_absent : CatTable :=
  [((("IMAGES").data),
      ({("jpg").data, ("jpeg").data, ("png").data, ("gif").data, ("bmp").data,
        ("webp").data} : Finset PyStr)),
   ((("DOCUMENTS").data),
      ({("pdf").data, ("doc").data, ("docx").data, ("txt").data, ("rtf").data,
        ("odt").data} : Finset PyStr)),
   ((("AUDIO").data), ({("mp3").data, ("wav").data, ("aac").data} : Finset PyStr)),
   ((("VIDEO").data),
      ({("mp4").data, ("mov").data, ("avi").data, ("mkv").data} : Finset PyStr)),
   ((("ARCHIVES").data), ({("zip").data, ("rar").data, ("7z").data} : Finset PyStr)),
   ((("NO_EXTENSION_FILES").data), ({NO_EXTENSION_KEYWORD} : Finset PyStr))]

/-- Default table installed when the configuration file exists but cannot be
loaded or parsed (src/FileSorter.py lines 72-78). -/
def default_categories_corrupt : CatTable :=
  [((("IMAGES").data), ({("jpg").data, ("jpeg").data, ("png").data} : Finset PyStr)),
   ((("DOCUMENTS").data), ({("pdf").data, ("txt").data} : Finset PyStr)),
   ((("NO_EXTENSION_FILES").data), ({NO_EXTENSION_KEYWORD} : Finset PyStr))]

/-- Embedding of `load_custom_category_settings` (src/FileSorter.py lines
50-78) as a function of the abstract configuration-file state: a parsed file
is installed with each extension list converted to a set; a missing file
installs one built-in default table; a corrupt file installs another. -/
def load_custom_category_settings : ConfigFile → CatTable
  | ConfigFile.absent => default_categories_absent
  | ConfigFile.corrupt => default_categories_corrupt
  | ConfigFile.valid m => m.map (fun e => (e.1, e.2.toFinset))

-- --- Settings mutation commands (src/FileSorter.py lines 371-516) ---

/-- Error outcomes of `add_or_update_category_command_settings`, one per
early-return feedback message in the source (lines 389-433). -/
inductive SettingsError where
  | emptyName
  | emptyExtensions
  | reservedMustBeAlone
  | reservedKeywordMisuse
  | noValidExtensions
  | nameExists
  | newNameExists
  | extensionConflict (conflicts : Finset PyStr)
deriving DecidableEq

/-- Python truthiness of the optional `existing_category_name_to_update`
argument: `None` and the empty string are both falsy. -/
def normalized_existing (existing : Option PyStr) : Option PyStr :=
  match existing with
  | some e => if e = [] then none else some e
  | none => none

/-- Test used by `get_all_assigned_extensions_settings` (line 375):
`exclude_category and cat == exclude_category`, with Python truthiness of
the exclusion argument. -/
def py_truthy_eq (exclude : Option PyStr) (name : PyStr) : Bool :=
  match exclude with
  | none => false
  | some x => !(x == []) && (name == x)

/-- One step of the accumulation loop in
`get_all_assigned_extensions_settings` (lines 374-377). -/
def assigned_step (exclude : Option PyStr) (assigned : Finset PyStr)
    (e : PyStr × Finset PyStr) : Finset PyStr :=
  if py_truthy_eq exclude e.1 then assigned else assigned ∪ e.2

/-- Embedding of `get_all_assigned_extensions_settings` (src/FileSorter.py
lines 371-378): the union of all extension sets except the excluded
category's. -/
def get_all_assigned_extensions_settings (mappings : CatTable)
    (exclude_category : Option PyStr) : Finset PyStr :=
  mappings.foldl (assigned_step exclude_category) ∅

/-- Membership test of a Python dict (`key in mappings`). -/
def dict_contains (mappings : CatTable) (k : PyStr) : Bool :=
  mappings.any (fun e => e.1 == k)

/-- Assignment `mappings[k] = v` on a Python dict: update in place when the
key exists (keeping its position), append otherwise. -/
def dict_set (mappings : CatTable) (k : PyStr) (v : Finset PyStr) : CatTable :=
  if dict_contains mappings k then
    mappings.map (fun e => if e.1 == k then (k, v) else e)
  else mappings ++ [(k, v)]

/-- Deletion `del mappings[k]` on a Python dict (all call sites guard on
membership first, so plain filtering is faithful). -/
def dict_del (mappings : CatTable) (k : PyStr) : CatTable :=
  mappings.filter (fun e => !(e.1 == k))

/-- Tokens parsed from the extensions entry (lines 405 and 410): the input
is stripped and lower-cased, split on commas, and each piece stripped. -/
def parsed_exts (exts_input : PyStr) : List PyStr :=
  (py_split ',' (py_lower (py_strip exts_input))).map py_strip

/-- The submitted extension set (line 410): parsed tokens that are nonempty
and not a bare dot. -/
def current_exts_set (exts_input : PyStr) : Finset PyStr :=
  ((parsed_exts exts_input).filter (fun e => !(e == []) && !(e == ['.']))).toFinset

/-- The `exclude_category` argument passed at line 427:
`existing_category_name_to_update or new_cat_name` under Python truthiness. -/
def exclude_name (existing : Option PyStr) (new_name : PyStr) : PyStr :=
  (normalized_existing existing).getD new_name

/-- The conflicting extensions computed at line 429: submitted tokens
already assigned to a category other than the one being updated. -/
def conflict_set (mappings : CatTable) (existing : Option PyStr)
    (name_input exts_input : PyStr) : Finset PyStr :=
  current_exts_set exts_input ∩
    get_all_assigned_extensions_settings mappings
      (some (exclude_name existing (py_strip name_input)))

/-- Rename test for the second name-collision check (line 422): there is a
truthy existing name and the new name differs from it. -/
def renaming_to_other (existing : Option PyStr) (new_name : PyStr) : Bool :=
  match existing with
  | some e => !(new_name == e)
  | none => false

/-- Deletion of the old entry when renaming (lines 436-437). -/
def del_old_entry (mappings : CatTable) (existing : Option PyStr)
    (new_name : PyStr) : CatTable :=
  match existing with
  | some e => if e ≠ new_name ∧ dict_contains mappings e then dict_del mappings e else mappings
  | none => mappings

/-- Embedding of `add_or_update_category_command_settings`
(src/FileSorter.py lines 382-448) as a pure function from the current table
and the dialog inputs to an optional error and the resulting table.  Every
error branch returns before any mutation, so it pairs the error with the
unchanged input table; the success branch deletes the old entry when
renaming and installs the new entry.  (The `is_no_ext_cat_name` variable
computed at lines 397-399 of the source is never read and is omitted.) -/
def add_or_update_category_command_settings (mappings : CatTable)
    (existing_category_name_to_update : Option PyStr)
    (name_input exts_input : PyStr) : Option SettingsError × CatTable :=
  let new_cat_name := py_strip name_input
  let exts_str := py_lower (py_strip exts_input)
  if new_cat_name = [] then (some SettingsError.emptyName, mappings)
  else if exts_str = [] then (some SettingsError.emptyExtensions, mappings)
  else if py_upper new_cat_name = ("NO_EXTENSION_FILES").data ∧
      exts_str ≠ NO_EXTENSION_KEYWORD then
    (some SettingsError.reservedMustBeAlone, mappings)
  else if py_upper new_cat_name ≠ ("NO_EXTENSION_FILES").data ∧
      NO_EXTENSION_KEYWORD ∈ (py_split ',' exts_str).map py_strip then
    (some SettingsError.reservedKeywordMisuse, mappings)
  else if current_exts_set exts_input = ∅ then
    (some SettingsError.noValidExtensions, mappings)
  else if normalized_existing existing_category_name_to_update = none ∧
      dict_contains mappings new_cat_name then
    (some SettingsError.nameExists, mappings)
  else if renaming_to_other (normalized_existing existing_category_name_to_update)
      new_cat_name ∧ dict_contains mappings new_cat_name then
    (some SettingsError.newNameExists, mappings)
  else if conflict_set mappings existing_category_name_to_update name_input exts_input ≠ ∅ then
    (some (SettingsError.extensionConflict
      (conflict_set mappings existing_category_name_to_update name_input exts_input)), mappings)
  else
    (none,
      dict_set
        (del_old_entry mappings
          (normalized_existing existing_category_name_to_update) new_cat_name)
        new_cat_name (current_exts_set exts_input))

/-- Embedding of `remove_category_command_settings` (src/FileSorter.py
lines 503-516): delete the entry when present, otherwise do nothing. -/
def remove_category_command_settings (mappings : CatTable)
    (cat_to_remove : PyStr) : CatTable :=
  if dict_contains mappings cat_to_remove then dict_del mappings cat_to_remove
  else mappings

-- --- C9: load defaults ---

/-- C9 counterexample: the two failure branches of
`load_custom_category_settings` do not return the same built-in default
table — the absent-file default has six categories while the corrupt-file
default has three. -/
theorem claim_c9_counterexample :
    load_custom_category_settings ConfigFile.absent ≠
      load_custom_category_settings ConfigFile.corrupt := by
  decide

/-- C9 (amended): `load_custom_category_settings` returns a built-in default
table in each failure case of the configuration store, but the two cases
use two different built-in defaults: the full six-category default when the
file is absent, and a reduced three-category default when the file exists
but is corrupt or unparseable. -/
theorem claim_c9_load_defaults :
    load_custom_category_settings ConfigFile.absent = default_categories_absent ∧
    load_custom_category_settings ConfigFile.corrupt = default_categories_corrupt ∧
    default_categories_absent ≠ default_categories_corrupt :=
  ⟨rfl, rfl, by decide⟩

-- --- C3: extension conflict rejection ---

/-- Conjunction of the input-validation checks that precede the
extension-conflict check in `add_or_update_category_command_settings` (the
negations of the seven earlier error conditions, src/FileSorter.py lines
389-425). -/
def passes_preliminary_checks (mappings : CatTable) (existing : Option PyStr)
    (name_input exts_input : PyStr) : Prop :=
  py_strip name_input ≠ [] ∧
  py_lower (py_strip exts_input) ≠ [] ∧
  ¬ (py_upper (py_strip name_input) = ("NO_EXTENSION_FILES").data ∧
      py_lower (py_strip exts_input) ≠ NO_EXTENSION_KEYWORD) ∧
  ¬ (py_upper (py_strip name_input) ≠ ("NO_EXTENSION_FILES").data ∧
      NO_EXTENSION_KEYWORD ∈ (py_split ',' (py_lower (py_strip exts_input))).map py_strip) ∧
  current_exts_set exts_input ≠ ∅ ∧
  ¬ (normalized_existing existing = none ∧
      dict_contains mappings (py_strip name_input) = true) ∧
  ¬ (renaming_to_other (normalized_existing existing) (py_strip name_input) = true ∧
      dict_contains mappings (py_strip name_input) = true)

/-- C3: whenever some submitted extension token is already owned by a
different category (the conflict set of the call is nonempty),
`add_or_update_category_command_settings` leaves the table completely
unchanged and reports an error; and if the call passes all the earlier
input-validation checks, that error is precisely `extensionConflict` with
the conflicting tokens. -/
theorem claim_c3_conflict_rejected (mappings : CatTable) (existing : Option PyStr)
    (name_input exts_input : PyStr)
    (hconf : conflict_set mappings existing name_input exts_input ≠ ∅) :
    (add_or_update_category_command_settings mappings existing name_input exts_input).2 =
      mappings ∧
    (add_or_update_category_command_settings mappings existing name_input exts_input).1 ≠
      none ∧
    (passes_preliminary_checks mappings existing name_input exts_input →
      (add_or_update_category_command_settings mappings existing name_input exts_input).1 =
        some (SettingsError.extensionConflict
          (conflict_set mappings existing name_input exts_input))) := by
  simp only [add_or_update_category_command_settings]
  split_ifs with h1 h2 h3 h4 h5 h6 h7
  · exact ⟨rfl, by simp, fun hp => absurd h1 hp.1⟩
  · exact ⟨rfl, by simp, fun hp => absurd h2 hp.2.1⟩
  · exact ⟨rfl, by simp, fun hp => absurd h3 hp.2.2.1⟩
  · exact ⟨rfl, by simp, fun hp => absurd h4 hp.2.2.2.1⟩
  · exact ⟨rfl, by simp, fun hp => absurd h5 hp.2.2.2.2.1⟩
  · exact ⟨rfl, by simp, fun hp => absurd h6 hp.2.2.2.2.2.1⟩
  · exact ⟨rfl, by simp, fun hp => absurd h7 hp.2.2.2.2.2.2⟩
  · exact ⟨rfl, by simp, fun _ => rfl⟩

theorem claim_c3_conflict_rejected_witness :
    (add_or_update_category_command_settings
        [((("IMAGES").data), ({("jpg").data} : Finset PyStr))] none
        (("DOCS").data) (("jpg, txt").data)).2 =
      [((("IMAGES").data), ({("jpg").data} : Finset PyStr))] ∧
    (add_or_update_category_command_settings
        [((("IMAGES").data), ({("jpg").data} : Finset PyStr))] none
        (("DOCS").data) (("jpg, txt").data)).1 =
      some (SettingsError.extensionConflict
        (conflict_set [((("IMAGES").data), ({("jpg").data} : Finset PyStr))] none
          (("DOCS").data) (("jpg, txt").data))) := by
  have h := claim_c3_conflict_rejected
    [((("IMAGES").data), ({("jpg").data} : Finset PyStr))] none
    (("DOCS").data) (("jpg, txt").data) (by decide)
  exact ⟨h.1, h.2.2 (by unfold passes_preliminary_checks; decide)⟩

-- --- C8: table invariant helper lemmas ---

theorem py_split_cons (sep ch : Char) (rest : PyStr) :
    py_split sep (ch :: rest) =
      match py_split sep rest with
      | [] => [[]]
      | h :: t => if ch = sep then [] :: h :: t else (ch :: h) :: t := rfl

theorem py_split_ne_nil (sep : Char) (l : PyStr) : py_split sep l ≠ [] := by
  cases l with
  | nil => simp [py_split]
  | cons ch rest =>
    rw [py_split_cons]
    cases h : py_split sep rest with
    | nil => simp
    | cons hh tt => split_ifs <;> simp

theorem py_split_chars_subset (sep : Char) (l : PyStr) :
    ∀ p ∈ py_split sep l, ∀ c ∈ p, c ∈ l := by
  induction l with
  | nil =>
    intro p hp c hc
    simp only [py_split, List.mem_singleton] at hp
    subst hp
    simp at hc
  | cons ch rest ih =>
    intro p hp c hc
    rw [py_split_cons] at hp
    cases hsp : py_split sep rest with
    | nil => exact absurd hsp (py_split_ne_nil sep rest)
    | cons hh tt =>
      rw [hsp] at hp
      change p ∈ (if ch = sep then [] :: hh :: tt else (ch :: hh) :: tt) at hp
      by_cases hcs : ch = sep
      · rw [if_pos hcs] at hp
        rcases List.mem_cons.mp hp with rfl | hp2
        · simp at hc
        · exact List.mem_cons_of_mem ch (ih p (by rw [hsp]; exact hp2) c hc)
      · rw [if_neg hcs] at hp
        rcases List.mem_cons.mp hp with rfl | hp2
        · rcases List.mem_cons.mp hc with rfl | hc2
          · exact List.mem_cons_self _ _
          · have hhh : hh ∈ py_split sep rest := by
              rw [hsp]; exact List.mem_cons_self _ _
            exact List.mem_cons_of_mem ch (ih hh hhh c hc2)
        · have hpt : p ∈ py_split sep rest := by
            rw [hsp]; exact List.mem_cons_of_mem _ hp2
          exact List.mem_cons_of_mem ch (ih p hpt c hc)

theorem py_strip_chars_subset (s : PyStr) (c : Char) (hc : c ∈ py_strip s) : c ∈ s := by
  unfold py_strip at hc
  rw [List.mem_reverse] at hc
  have h1 : c ∈ (s.dropWhile py_is_space).reverse :=
    (List.dropWhile_sublist _).subset hc
  rw [List.mem_reverse] at h1
  exact (List.dropWhile_sublist _).subset h1

/-- Wellformedness of a stored extension token, as far as the mutation code
actually enforces it: lower-case, nonempty, and not a bare dot. -/
def wf_token (t : PyStr) : Prop := py_lower t = t ∧ t ≠ [] ∧ t ≠ ['.']

/-- Wellformedness of the category table: distinct category names, wellformed
tokens, and pairwise-disjoint extension sets (each token owned by at most
one category). -/
def wf_table (mappings : CatTable) : Prop :=
  (mappings.map (fun e => e.1)).Nodup ∧
  (∀ e ∈ mappings, ∀ t ∈ e.2, wf_token t) ∧
  mappings.Pairwise (fun a b => Disjoint a.2 b.2)

theorem current_exts_set_tokens_wf (exts_input : PyStr) :
    ∀ t ∈ current_exts_set exts_input, wf_token t := by
  intro t ht
  unfold current_exts_set at ht
  rw [List.mem_toFinset, List.mem_filter] at ht
  obtain ⟨hmem, hcond⟩ := ht
  have hne1 : t ≠ [] := by
    intro hh; subst hh; simp at hcond
  have hne2 : t ≠ ['.'] := by
    intro hh; subst hh; simp at hcond
  unfold parsed_exts at hmem
  obtain ⟨u, hu, rfl⟩ := List.mem_map.mp hmem
  refine ⟨?_, hne1, hne2⟩
  apply py_lower_fixed_of_no_upper
  intro c hc
  exact no_upper_of_mem_py_lower _ c
    (py_split_chars_subset ',' _ u hu c (py_strip_chars_subset u c hc))

theorem foldl_assigned_mono (excl : Option PyStr) (l : CatTable) (acc : Finset PyStr) :
    acc ⊆ l.foldl (assigned_step excl) acc := by
  induction l generalizing acc with
  | nil => simp
  | cons e rest ih =>
    intro x hx
    rw [List.foldl_cons]
    apply ih
    unfold assigned_step
    split_ifs
    · exact hx
    · exact Finset.mem_union_left _ hx

theorem subset_foldl_assigned (excl : Option PyStr) (l : CatTable) (acc : Finset PyStr)
    (e : PyStr × Finset PyStr) (he : e ∈ l) (hne : py_truthy_eq excl e.1 = false) :
    e.2 ⊆ l.foldl (assigned_step excl) acc := by
  induction l generalizing acc with
  | nil => simp at he
  | cons a rest ih =>
    rw [List.foldl_cons]
    rcases List.mem_cons.mp he with rfl | he2
    · intro x hx
      apply foldl_assigned_mono
      unfold assigned_step
      rw [if_neg (by rw [hne]; simp)]
      exact Finset.mem_union_right _ hx
    · exact ih _ he2

theorem subset_get_all_assigned (mappings : CatTable) (excl : PyStr)
    (e : PyStr × Finset PyStr) (he : e ∈ mappings) (hne : e.1 ≠ excl) :
    e.2 ⊆ get_all_assigned_extensions_settings mappings (some excl) := by
  apply subset_foldl_assigned (some excl) mappings ∅ e he
  unfold py_truthy_eq
  simp [hne]

theorem disjoint_of_conflict_empty (mappings : CatTable) (existing : Option PyStr)
    (name_input exts_input : PyStr)
    (hc : conflict_set mappings existing name_input exts_input = ∅)
    (e : PyStr × Finset PyStr) (he : e ∈ mappings)
    (hne : e.1 ≠ exclude_name existing (py_strip name_input)) :
    Disjoint e.2 (current_exts_set exts_input) := by
  rw [Finset.disjoint_left]
  intro x hxe hxc
  have hxa : x ∈ get_all_assigned_extensions_settings mappings
      (some (exclude_name existing (py_strip name_input))) :=
    subset_get_all_assigned mappings _ e he hne hxe
  have hx : x ∈ conflict_set mappings existing name_input exts_input :=
    Finset.mem_inter.mpr ⟨hxc, hxa⟩
  rw [hc] at hx
  exact absurd hx (Finset.not_mem_empty x)

theorem mem_dict_del_ne (m : CatTable) (k : PyStr) (e : PyStr × Finset PyStr)
    (he : e ∈ dict_del m k) : e.1 ≠ k := by
  unfold dict_del at he
  have h2 := (List.mem_filter.mp he).2
  simpa using h2

theorem dict_del_sublist (m : CatTable) (k : PyStr) :
    List.Sublist (dict_del m k) m := List.filter_sublist m

theorem del_old_entry_sublist (m : CatTable) (ex : Option PyStr) (nn : PyStr) :
    List.Sublist (del_old_entry m ex nn) m := by
  cases ex with
  | none => exact List.Sublist.refl m
  | some e =>
    show List.Sublist (if e ≠ nn ∧ dict_contains m e = true then dict_del m e else m) m
    split_ifs with h
    · exact dict_del_sublist m e
    · exact List.Sublist.refl m

theorem wf_table_sublist (m m' : CatTable) (hs : List.Sublist m' m) (h : wf_table m) :
    wf_table m' := by
  obtain ⟨hn, ht, hp⟩ := h
  refine ⟨List.Nodup.sublist (hs.map _) hn, ?_, List.Pairwise.sublist hs hp⟩
  intro e he t htok
  exact ht e (hs.subset he) t htok

theorem dict_contains_false_forall (m : CatTable) (k : PyStr)
    (hc : ¬ dict_contains m k = true) : ∀ e ∈ m, e.1 ≠ k := by
  intro e he hek
  apply hc
  unfold dict_contains
  rw [List.any_eq_true]
  exact ⟨e, he, by simp [hek]⟩

theorem dict_set_wf (m : CatTable) (k : PyStr) (v : Finset PyStr)
    (hw : wf_table m) (hv : ∀ t ∈ v, wf_token t)
    (hdisj : ∀ e ∈ m, e.1 ≠ k → Disjoint e.2 v) :
    wf_table (dict_set m k v) := by
  obtain ⟨hn, ht, hp⟩ := hw
  unfold dict_set
  split_ifs with hc
  · have hfst : (m.map (fun e => if e.1 == k then (k, v) else e)).map (fun e => e.1) =
        m.map (fun e => e.1) := by
      rw [List.map_map]
      apply List.map_congr_left
      intro e _
      by_cases hek : e.1 = k
      · simp [hek]
      · simp [hek]
    refine ⟨?_, ?_, ?_⟩
    · rw [hfst]; exact hn
    · intro e' he' t htok
      obtain ⟨e, he, rfl⟩ := List.mem_map.mp he'
      by_cases hek : e.1 = k
      · rw [show ((if e.1 == k then (k, v) else e) : PyStr × Finset PyStr) = (k, v) from
          by simp [hek]] at htok
        exact hv t htok
      · rw [show ((if e.1 == k then (k, v) else e) : PyStr × Finset PyStr) = e from
          by simp [hek]] at htok
        exact ht e he t htok
    · rw [List.pairwise_map]
      have hpne : m.Pairwise (fun a b => a.1 ≠ b.1) :=
        List.pairwise_map.mp hn
      have hcomb := hp.and hpne
      apply List.Pairwise.imp_of_mem ?_ hcomb
      intro a b ha hb hab
      obtain ⟨hd, hne⟩ := hab
      by_cases hak : a.1 = k
      · by_cases hbk : b.1 = k
        · exact absurd (hak.trans hbk.symm) hne
        · rw [show ((if a.1 == k then (k, v) else a) : PyStr × Finset PyStr) = (k, v) from
              by simp [hak],
            show ((if b.1 == k then (k, v) else b) : PyStr × Finset PyStr) = b from
              by simp [hbk]]
          exact (hdisj b hb hbk).symm
      · by_cases hbk : b.1 = k
        · rw [show ((if a.1 == k then (k, v) else a) : PyStr × Finset PyStr) = a from
              by simp [hak],
            show ((if b.1 == k then (k, v) else b) : PyStr × Finset PyStr) = (k, v) from
              by simp [hbk]]
          exact hdisj a ha hak
        · rw [show ((if a.1 == k then (k, v) else a) : PyStr × Finset PyStr) = a from
              by simp [hak],
            show ((if b.1 == k then (k, v) else b) : PyStr × Finset PyStr) = b from
              by simp [hbk]]
          exact hd
  · have hnk : ∀ e ∈ m, e.1 ≠ k := dict_contains_false_forall m k hc
    refine ⟨?_, ?_, ?_⟩
    · rw [List.map_append, List.nodup_append]
      refine ⟨hn, by simp, ?_⟩
      intro a ha hak
      rw [List.map_singleton, List.mem_singleton] at hak
      subst hak
      obtain ⟨e, he, hea⟩ := List.mem_map.mp ha
      exact hnk e he hea
    · intro e he t htok
      rcases List.mem_append.mp he with he1 | he2
      · exact ht e he1 t htok
      · rw [List.mem_singleton] at he2
        subst he2
        exact hv t htok
    · rw [List.pairwise_append]
      refine ⟨hp, by simp, ?_⟩
      intro a ha b hb
      rw [List.mem_singleton] at hb
      subst hb
      exact hdisj a ha (hnk a ha)

/-- C8 counterexample: the claimed "no leading dot" part of the invariant is
not enforced at mutation time.  Submitting the extension entry `".jpg"`
succeeds and stores the token `".jpg"` with its leading dot (the parse at
src/FileSorter.py lines 410-411 only discards empty tokens and the bare
token `"."`, it does not strip leading dots). -/
theorem claim_c8_counterexample :
    (add_or_update_category_command_settings [] none (("A").data) ((".jpg").data)).1 =
      none ∧
    (add_or_update_category_command_settings [] none (("A").data) ((".jpg").data)).2 =
      [((("A").data), ({(".jpg").data} : Finset PyStr))] ∧
    ((".jpg").data).head? = some '.' := by
  decide

/-- C8 (amended): after every successful mutation of the category table
starting from a wellformed table — a successful
`add_or_update_category_command_settings` or any
`remove_category_command_settings` — every stored extension token is
lower-case, nonempty and not a bare dot (leading dots are NOT stripped, so
"no leading dot" does not hold), category names remain distinct, and every
token (the reserved sentinel included) belongs to at most one category's
set; this is enforced at mutation time by the conflict check. -/
theorem claim_c8_invariant :
    (∀ (mappings : CatTable) (existing : Option PyStr) (name_input exts_input : PyStr)
        (result : CatTable),
      wf_table mappings →
      add_or_update_category_command_settings mappings existing name_input exts_input =
        (none, result) →
      wf_table result) ∧
    (∀ (mappings : CatTable) (cat : PyStr), wf_table mappings →
      wf_table (remove_category_command_settings mappings cat)) := by
  constructor
  · intro mappings existing name_input exts_input result hw heq
    simp only [add_or_update_category_command_settings] at heq
    split_ifs at heq with h1 h2 h3 h4 h5 h6 h7 h8
    · simp at heq
    · simp at heq
    · simp at heq
    · simp at heq
    · simp at heq
    · simp at heq
    · simp at heq
    · simp at heq
    · injection heq with hfst hsnd
      subst hsnd
      apply dict_set_wf
      · exact wf_table_sublist mappings _ (del_old_entry_sublist mappings _ _) hw
      · exact current_exts_set_tokens_wf exts_input
      · intro e he hek
        have hem : e ∈ mappings := (del_old_entry_sublist mappings _ _).subset he
        apply disjoint_of_conflict_empty mappings existing name_input exts_input
          (not_ne_iff.mp h8) e hem
        unfold exclude_name
        cases hnex : normalized_existing existing with
        | none => simpa using hek
        | some ex =>
          show e.1 ≠ ex
          by_cases hexn : ex = py_strip name_input
          · rw [hexn]; exact hek
          · rw [hnex] at he
            by_cases hdc : dict_contains mappings ex = true
            · rw [show del_old_entry mappings (some ex) (py_strip name_input) =
                  dict_del mappings ex from by
                    show (if ex ≠ py_strip name_input ∧ dict_contains mappings ex = true
                      then dict_del mappings ex else mappings) = dict_del mappings ex
                    rw [if_pos ⟨hexn, hdc⟩]] at he
              exact mem_dict_del_ne mappings ex e he
            · exact dict_contains_false_forall mappings ex hdc e hem
  · intro mappings cat hw
    unfold remove_category_command_settings
    split_ifs with hc
    · exact wf_table_sublist mappings _ (dict_del_sublist mappings cat) hw
    · exact hw

theorem claim_c8_invariant_witness :
    wf_table [((("IMAGES").data), ({("jpg").data} : Finset PyStr)),
      ((("DOCS").data), ({("txt").data} : Finset PyStr))] ∧
    wf_table (remove_category_command_settings
      [((("IMAGES").data), ({("jpg").data} : Finset PyStr))] (("IMAGES").data)) := by
  constructor
  · exact claim_c8_invariant.1 [((("IMAGES").data), ({("jpg").data} : Finset PyStr))]
      none (("DOCS").data) (("txt").data)
      [((("IMAGES").data), ({("jpg").data} : Finset PyStr)),
        ((("DOCS").data), ({("txt").data} : Finset PyStr))]
      (by unfold wf_table wf_token; decide) (by decide)
  · exact claim_c8_invariant.2 [((("IMAGES").data), ({("jpg").data} : Finset PyStr))]
      (("IMAGES").data) (by unfold wf_table wf_token; decide)

-- --- Flat filesystem model: collision resolution and moves ---

/-- Existing-path set: the model of the `os.path.exists` queries made by the
move/collision code. -/
abbrev PathSet := Finset PyStr

/-- Decimal rendering of a Python non-negative int, as produced by the
f-string `f"{name_part}_{count}"`; written with explicit structural fuel
(`n + 1` steps always suffice) so that it evaluates inside the kernel. -/
def nat_digits_aux : Nat → Nat → PyStr
  | 0, _ => []
  | fuel + 1, n =>
    if n < 10 then [Char.ofNat (48 + n)]
    else nat_digits_aux fuel (n / 10) ++ [Char.ofNat (48 + n % 10)]

/-- Decimal rendering of a Python non-negative int. -/
def nat_digits (n : Nat) : PyStr := nat_digits_aux (n + 1) n

theorem nat_digits_aux_congr :
    ∀ (f1 f2 n : Nat), n < f1 → n < f2 → nat_digits_aux f1 n = nat_digits_aux f2 n := by
  intro f1
  induction f1 with
  | zero => intro f2 n h1; omega
  | succ g1 ih =>
    intro f2 n h1 h2
    cases f2 with
    | zero => omega
    | succ g2 =>
      show (if n < 10 then _ else _) = (if n < 10 then _ else _)
      split_ifs with hn
      · rfl
      · rw [ih g2 (n / 10) (by omega) (by omega)]

theorem nat_digits_lt (n : Nat) (h : n < 10) : nat_digits n = [Char.ofNat (48 + n)] := by
  unfold nat_digits nat_digits_aux
  rw [if_pos h]

theorem nat_digits_ge (n : Nat) (h : 10 ≤ n) :
    nat_digits n = nat_digits (n / 10) ++ [Char.ofNat (48 + n % 10)] := by
  unfold nat_digits
  show (if n < 10 then _ else nat_digits_aux n (n / 10) ++ _) = _
  rw [if_neg (by omega), nat_digits_aux_congr n (n / 10 + 1) (n / 10) (by omega) (by omega)]

theorem nat_digits_length_pos (n : Nat) : 0 < (nat_digits n).length := by
  rcases lt_or_le n 10 with h | h
  · rw [nat_digits_lt n h]; simp
  · rw [nat_digits_ge n h]; simp

theorem nat_digits_inj : ∀ m n : Nat, nat_digits m = nat_digits n → m = n := by
  intro m
  induction m using Nat.strong_induction_on with
  | _ m ih =>
    intro n h
    rcases lt_or_le m 10 with hm | hm <;> rcases lt_or_le n 10 with hn | hn
    · rw [nat_digits_lt m hm, nat_digits_lt n hn] at h
      have : (Char.ofNat (48 + m)).toNat = (Char.ofNat (48 + n)).toNat := by
        rw [(List.cons.inj h).1]
      rw [char_toNat_ofNat_of_lt (48 + m) (by omega),
        char_toNat_ofNat_of_lt (48 + n) (by omega)] at this
      omega
    · rw [nat_digits_lt m hm, nat_digits_ge n hn] at h
      have hl := congrArg List.length h
      have := nat_digits_length_pos (n / 10)
      simp only [List.length_append, List.length_singleton] at hl
      omega
    · rw [nat_digits_ge m hm, nat_digits_lt n hn] at h
      have hl := congrArg List.length h
      have := nat_digits_length_pos (m / 10)
      simp only [List.length_append, List.length_singleton] at hl
      omega
    · rw [nat_digits_ge m hm, nat_digits_ge n hn] at h
      have hlen : (nat_digits (m / 10)).length = (nat_digits (n / 10)).length := by
        have hl := congrArg List.length h
        simp only [List.length_append, List.length_singleton] at hl
        omega
      obtain ⟨hdl, hlast⟩ := List.append_inj h (by omega)
      have hdiv : m / 10 = n / 10 := ih (m / 10) (by omega) (n / 10) hdl
      have hmod : (Char.ofNat (48 + m % 10)).toNat = (Char.ofNat (48 + n % 10)).toNat := by
        rw [(List.cons.inj hlast).1]
      rw [char_toNat_ofNat_of_lt (48 + m % 10) (by omega),
        char_toNat_ofNat_of_lt (48 + n % 10) (by omega)] at hmod
      omega

/-- One collision-probe candidate of `move_file_to_folder_gui`
(src/FileSorter.py lines 239-247): `f"{name_part}_{count}{ext_part}"`
joined onto the destination folder. -/
def collision_candidate (folder name_part ext_part : PyStr) (count : Nat) : PyStr :=
  os_path_join folder (name_part ++ '_' :: (nat_digits count ++ ext_part))

/-- The probing `while` loop of lines 242-246, with explicit fuel; the fuel
passed by `resolve_collision` is proven sufficient
(`exists_free_candidate`), making the bounded loop equivalent to the
unbounded loop of the source. -/
def collision_probe (fs : PathSet) (folder name_part ext_part : PyStr) :
    Nat → Nat → Nat
  | count, 0 => count
  | count, fuel + 1 =>
    if collision_candidate folder name_part ext_part count ∈ fs then
      collision_probe fs folder name_part ext_part (count + 1) fuel
    else count

/-- Embedding of the collision-handling block of `move_file_to_folder_gui`
(src/FileSorter.py lines 236-247), extracted as the `resolve_collision`
operation of the specification: return `folder/file_name` unchanged when it
does not exist, otherwise split the name with `os.path.splitext` and probe
`stem_1`, `stem_2`, ... until a non-existing path is found. -/
def resolve_collision (fs : PathSet) (folder file_name : PyStr) : PyStr :=
  if os_path_join folder file_name ∈ fs then
    collision_candidate folder (os_path_splitext file_name).1 (os_path_splitext file_name).2
      (collision_probe fs folder (os_path_splitext file_name).1 (os_path_splitext file_name).2
        1 (fs.card + 1))
  else os_path_join folder file_name

theorem head_append_underscore (np ep l : PyStr) :
    (np ++ '_' :: (l ++ ep)).head? = (np ++ '_' :: ep).head? := by
  cases np <;> simp

theorem os_path_join_inj_right (folder x y : PyStr) (hx : x.head? = y.head?)
    (h : os_path_join folder x = os_path_join folder y) : x = y := by
  unfold os_path_join at h
  by_cases h1 : x.head? = some '/'
  · have hy1 : y.head? = some '/' := by rw [← hx]; exact h1
    rw [if_pos h1, if_pos hy1] at h
    exact h
  · have hy1 : ¬ y.head? = some '/' := by rw [← hx]; exact h1
    rw [if_neg h1, if_neg hy1] at h
    by_cases h2 : folder = [] ∨ folder.getLast? = some '/'
    · rw [if_pos h2, if_pos h2] at h
      exact List.append_cancel_left h
    · rw [if_neg h2, if_neg h2] at h
      exact (List.cons.inj (List.append_cancel_left h)).2

theorem collision_candidate_inj (folder np ep : PyStr) (m n : Nat)
    (h : collision_candidate folder np ep m = collision_candidate folder np ep n) :
    m = n := by
  unfold collision_candidate at h
  have harg := os_path_join_inj_right folder _ _
    ((head_append_underscore np ep (nat_digits m)).trans
      (head_append_underscore np ep (nat_digits n)).symm) h
  have h2 := List.append_cancel_left harg
  have h3 := (List.cons.inj h2).2
  have hlen : (nat_digits m).length = (nat_digits n).length := by
    have := congrArg List.length h3
    simp only [List.length_append] at this
    omega
  exact nat_digits_inj m n (List.append_inj h3 hlen).1

theorem exists_free_candidate (fs : PathSet) (folder np ep : PyStr) (c0 : Nat) :
    ∃ k ≤ fs.card, collision_candidate folder np ep (c0 + k) ∉ fs := by
  by_contra hall
  push_neg at hall
  have hinj : Function.Injective (fun k => collision_candidate folder np ep (c0 + k)) := by
    intro a b hab
    have := collision_candidate_inj folder np ep (c0 + a) (c0 + b) hab
    omega
  have himg : (Finset.range (fs.card + 1)).image
      (fun k => collision_candidate folder np ep (c0 + k)) ⊆ fs := by
    intro x hx
    obtain ⟨k, hk, rfl⟩ := Finset.mem_image.mp hx
    rw [Finset.mem_range] at hk
    exact hall k (by omega)
  have hcard : ((Finset.range (fs.card + 1)).image
      (fun k => collision_candidate folder np ep (c0 + k))).card = fs.card + 1 := by
    rw [Finset.card_image_of_injective _ hinj, Finset.card_range]
  have := Finset.card_le_card himg
  omega

theorem collision_probe_succ (fs : PathSet) (folder np ep : PyStr) (c0 fuel : Nat) :
    collision_probe fs folder np ep c0 (fuel + 1) =
      if collision_candidate folder np ep c0 ∈ fs then
        collision_probe fs folder np ep (c0 + 1) fuel
      else c0 := rfl

theorem collision_probe_spec (fs : PathSet) (folder np ep : PyStr) :
    ∀ (fuel c0 : Nat),
    (∃ k < fuel, collision_candidate folder np ep (c0 + k) ∉ fs) →
    c0 ≤ collision_probe fs folder np ep c0 fuel ∧
    collision_candidate folder np ep (collision_probe fs folder np ep c0 fuel) ∉ fs ∧
    ∀ j, c0 ≤ j → j < collision_probe fs folder np ep c0 fuel →
      collision_candidate folder np ep j ∈ fs := by
  intro fuel
  induction fuel with
  | zero =>
    intro c0 hex
    obtain ⟨k, hk, _⟩ := hex
    omega
  | succ fuel ih =>
    intro c0 hex
    rw [collision_probe_succ]
    by_cases hc : collision_candidate folder np ep c0 ∈ fs
    · rw [if_pos hc]
      have hex2 : ∃ k < fuel, collision_candidate folder np ep (c0 + 1 + k) ∉ fs := by
        obtain ⟨k, hk, hfree⟩ := hex
        cases k with
        | zero => exact absurd hc (by simpa using hfree)
        | succ k2 =>
          exact ⟨k2, by omega, by
            have heq : c0 + 1 + k2 = c0 + (k2 + 1) := by omega
            rw [heq]; exact hfree⟩
      obtain ⟨hle, hfree, hall⟩ := ih (c0 + 1) hex2
      refine ⟨by omega, hfree, ?_⟩
      intro j hj1 hj2
      rcases Nat.eq_or_lt_of_le hj1 with rfl | hgt
      · exact hc
      · exact hall j (by omega) hj2
    · rw [if_neg hc]
      exact ⟨le_refl c0, hc, fun j hj1 hj2 => by omega⟩

/-- C5: `resolve_collision` returns the unmodified path when
`destination_folder/file_name` does not exist; otherwise it splits the name
into stem and extension and probes `stem_1`, `stem_2`, ... (re-appending
the original extension) in increasing integer order, returning the first
non-existing path; concretely, with `a.txt` present it returns `a_1.txt`,
and with both `a.txt` and `a_1.txt` present it returns `a_2.txt`. -/
theorem claim_c5_resolve_collision :
    (∀ (fs : PathSet) (folder file_name : PyStr),
      os_path_join folder file_name ∉ fs →
      resolve_collision fs folder file_name = os_path_join folder file_name) ∧
    (∀ (fs : PathSet) (folder file_name : PyStr),
      os_path_join folder file_name ∈ fs →
      ∃ k, 1 ≤ k ∧
        resolve_collision fs folder file_name =
          collision_candidate folder (os_path_splitext file_name).1
            (os_path_splitext file_name).2 k ∧
        collision_candidate folder (os_path_splitext file_name).1
          (os_path_splitext file_name).2 k ∉ fs ∧
        (∀ j, 1 ≤ j → j < k →
          collision_candidate folder (os_path_splitext file_name).1
            (os_path_splitext file_name).2 j ∈ fs)) ∧
    resolve_collision ({os_path_join (("dest").data) (("a.txt").data)} : PathSet)
      (("dest").data) (("a.txt").data) = ("dest/a_1.txt").data ∧
    resolve_collision ({os_path_join (("dest").data) (("a.txt").data),
        os_path_join (("dest").data) (("a_1.txt").data)} : PathSet)
      (("dest").data) (("a.txt").data) = ("dest/a_2.txt").data := by
  refine ⟨?_, ?_, by decide, by decide⟩
  · intro fs folder file_name h
    unfold resolve_collision
    rw [if_neg h]
  · intro fs folder file_name h
    unfold resolve_collision
    rw [if_pos h]
    have hex : ∃ k < fs.card + 1,
        collision_candidate folder (os_path_splitext file_name).1
          (os_path_splitext file_name).2 (1 + k) ∉ fs := by
      obtain ⟨k, hk, hfree⟩ := exists_free_candidate fs folder
        (os_path_splitext file_name).1 (os_path_splitext file_name).2 1
      exact ⟨k, by omega, hfree⟩
    obtain ⟨hle, hfree, hall⟩ := collision_probe_spec fs folder
      (os_path_splitext file_name).1 (os_path_splitext file_name).2 (fs.card + 1) 1 hex
    exact ⟨collision_probe fs folder (os_path_splitext file_name).1
      (os_path_splitext file_name).2 1 (fs.card + 1), hle, rfl, hfree, hall⟩

theorem claim_c5_resolve_collision_witness :
    resolve_collision (∅ : PathSet) (("dest").data) (("a.txt").data) =
      os_path_join (("dest").data) (("a.txt").data) ∧
    (∃ k, 1 ≤ k ∧
      resolve_collision ({os_path_join (("dest").data) (("a.txt").data)} : PathSet)
        (("dest").data) (("a.txt").data) =
        collision_candidate (("dest").data)
          (os_path_splitext (("a.txt").data)).1 (os_path_splitext (("a.txt").data)).2 k ∧
      collision_candidate (("dest").data)
        (os_path_splitext (("a.txt").data)).1 (os_path_splitext (("a.txt").data)).2 k ∉
          ({os_path_join (("dest").data) (("a.txt").data)} : PathSet) ∧
      (∀ j, 1 ≤ j → j < k →
        collision_candidate (("dest").data)
          (os_path_splitext (("a.txt").data)).1 (os_path_splitext (("a.txt").data)).2 j ∈
            ({os_path_join (("dest").data) (("a.txt").data)} : PathSet))) :=
  ⟨claim_c5_resolve_collision.1 ∅ (("dest").data) (("a.txt").data) (by decide),
   claim_c5_resolve_collision.2.1 ({os_path_join (("dest").data) (("a.txt").data)} : PathSet)
     (("dest").data) (("a.txt").data) (by decide)⟩

/-- Embedding of `move_file_to_folder_gui` (src/FileSorter.py lines 225-262)
over the flat path-set filesystem model, returning the function's Boolean
result paired with the path set after the call.  The already-in-place check
(lines 233-235) returns `true` with no filesystem access; otherwise the
move is modelled as the success path of `shutil.move` (OS-level move
failures, which the source catches and logs, are outside this model): the
source path is removed and the collision-resolved destination is added. -/
def move_file_to_folder_gui (fs : PathSet)
    (full_source_file_path original_target_dir destination_category_name : PyStr) :
    Bool × PathSet :=
  if os_path_normpath (os_path_dirname full_source_file_path) =
      os_path_normpath (os_path_join original_target_dir destination_category_name) ∧
    os_path_normpath full_source_file_path =
      os_path_normpath (os_path_join
        (os_path_join original_target_dir destination_category_name)
        (os_path_basename full_source_file_path)) then
    (true, fs)
  else
    (true,
      insert
        (resolve_collision fs
          (os_path_join original_target_dir destination_category_name)
          (os_path_basename full_source_file_path))
        (fs.erase full_source_file_path))

/-- C6: `move_file_to_folder_gui` is idempotent on an already-correctly
placed file: whenever the source's normalized parent directory equals
`target_root/category` and the resolved destination equals the source path
itself, the call returns `true` and changes nothing, and calling it twice
yields `true` both times with no filesystem change on the second call
either. -/
theorem claim_c6_move_file_idempotent (fs : PathSet) (src target_root category : PyStr)
    (h1 : os_path_normpath (os_path_dirname src) =
      os_path_normpath (os_path_join target_root category))
    (h2 : os_path_normpath src =
      os_path_normpath (os_path_join (os_path_join target_root category)
        (os_path_basename src))) :
    move_file_to_folder_gui fs src target_root category = (true, fs) ∧
    move_file_to_folder_gui
      (move_file_to_folder_gui fs src target_root category).2 src target_root category =
      (true, fs) := by
  have hbase : move_file_to_folder_gui fs src target_root category = (true, fs) := by
    unfold move_file_to_folder_gui
    rw [if_pos ⟨h1, h2⟩]
  refine ⟨hbase, ?_⟩
  rw [hbase]
  exact hbase

theorem claim_c6_move_file_idempotent_witness :
    move_file_to_folder_gui ({(("/root/CAT/a.txt").data)} : PathSet)
      (("/root/CAT/a.txt").data) (("/root").data) (("CAT").data) =
      (true, ({(("/root/CAT/a.txt").data)} : PathSet)) ∧
    move_file_to_folder_gui
      (move_file_to_folder_gui ({(("/root/CAT/a.txt").data)} : PathSet)
        (("/root/CAT/a.txt").data) (("/root").data) (("CAT").data)).2
      (("/root/CAT/a.txt").data) (("/root").data) (("CAT").data) =
      (true, ({(("/root/CAT/a.txt").data)} : PathSet)) :=
  claim_c6_move_file_idempotent ({(("/root/CAT/a.txt").data)} : PathSet)
    (("/root/CAT/a.txt").data) (("/root").data) (("CAT").data) (by decide) (by decide)

-- --- Directory-tree filesystem model (for os.walk based code) ---

mutual
/-- Directory tree: the on-disk state observed by the `os.walk`-based code;
a node holds its subdirectories (name and subtree, in listing order) and
its file names (in listing order). -/
inductive DirTree where
  | node (dirs : DirList) (files : List PyStr)
/-- Listing of the subdirectories of a directory node. -/
inductive DirList where
  | nil
  | cons (name : PyStr) (sub : DirTree) (rest : DirList)
end

/-- The subdirectory listing of a node. -/
def tree_dirs : DirTree → DirList
  | .node dirs _ => dirs

/-- The file listing of a node. -/
def tree_files : DirTree → List PyStr
  | .node _ files => files

/-- Membership of a named subdirectory (with its subtree) in a listing. -/
def child_in (d : PyStr) (s : DirTree) : DirList → Prop
  | .nil => False
  | .cons n sub rest => (d = n ∧ s = sub) ∨ child_in d s rest

/-- Embedding of `is_system_or_hidden` (src/FileSorter.py lines 151-162),
Unix-family branch: the base name of the path starts with a dot. -/
def is_system_or_hidden (filepath : PyStr) : Bool :=
  (os_path_basename filepath).head? == some '.'

mutual
/-- Embedding of `get_files_in_folder` (src/FileSorter.py lines 169-205)
as a function of the walked directory tree: an `os.walk` traversal that
removes hidden/system names from `dirnames` before descending (pruning
those subtrees entirely), skips hidden/system files, and collects every
remaining file path in traversal order.  The GUI logging and the
skipped-entry counter, which do not affect the returned list, are omitted. -/
def get_files_in_folder : PyStr → DirTree → List PyStr
  | dirpath, .node dirs files =>
    (files.filterMap (fun f =>
      if is_system_or_hidden (os_path_join dirpath f) then none
      else some (os_path_join dirpath f)))
    ++ scan_dirs dirpath dirs
/-- Traversal of the kept subdirectories, in listing order. -/
def scan_dirs : PyStr → DirList → List PyStr
  | _, .nil => []
  | dirpath, .cons d sub rest =>
    (if is_system_or_hidden (os_path_join dirpath d) then []
     else get_files_in_folder (os_path_join dirpath d) sub)
    ++ scan_dirs dirpath rest
end

/-- Characterization of the paths the scanner may report: a file reachable
from the scan root through non-hidden directories only, itself non-hidden,
reported at its joined path. -/
inductive Reports : PyStr → DirTree → PyStr → Prop where
  | file (dirpath : PyStr) (dirs : DirList) (files : List PyStr) (f : PyStr)
      (hf : f ∈ files)
      (hh : is_system_or_hidden (os_path_join dirpath f) = false) :
      Reports dirpath (.node dirs files) (os_path_join dirpath f)
  | dir (dirpath : PyStr) (dirs : DirList) (files : List PyStr) (d : PyStr)
      (sub : DirTree) (r : PyStr)
      (hd : child_in d sub dirs)
      (hh : is_system_or_hidden (os_path_join dirpath d) = false)
      (hr : Reports (os_path_join dirpath d) sub r) :
      Reports dirpath (.node dirs files) r

mutual
theorem mem_scan_iff_reports : ∀ (dirpath : PyStr) (t : DirTree) (r : PyStr),
    r ∈ get_files_in_folder dirpath t ↔ Reports dirpath t r
  | dirpath, .node dirs files, r => by
    show r ∈ (files.filterMap _) ++ scan_dirs dirpath dirs ↔ _
    rw [List.mem_append]
    constructor
    · intro h
      rcases h with h | h
      · obtain ⟨f, hf, hsome⟩ := List.mem_filterMap.mp h
        by_cases hh : is_system_or_hidden (os_path_join dirpath f) = true
        · rw [if_pos hh] at hsome
          exact absurd hsome (by simp)
        · rw [if_neg hh] at hsome
          rw [← Option.some.inj hsome]
          exact Reports.file dirpath dirs files f hf (by simpa using hh)
      · obtain ⟨d, sub, hchild, hh, hrep⟩ := (mem_scan_dirs_iff dirpath dirs r).mp h
        exact Reports.dir dirpath dirs files d sub r hchild hh hrep
    · intro h
      cases h with
      | file _ _ _ f hf hh =>
        left
        exact List.mem_filterMap.mpr ⟨f, hf, by rw [if_neg (by simp [hh])]⟩
      | dir _ _ _ d sub _ hd hh hr =>
        right
        exact (mem_scan_dirs_iff dirpath dirs r).mpr ⟨d, sub, hd, hh, hr⟩
theorem mem_scan_dirs_iff : ∀ (dirpath : PyStr) (l : DirList) (r : PyStr),
    r ∈ scan_dirs dirpath l ↔
      ∃ d sub, child_in d sub l ∧
        is_system_or_hidden (os_path_join dirpath d) = false ∧
        Reports (os_path_join dirpath d) sub r
  | dirpath, .nil, r => by
    show r ∈ ([] : List PyStr) ↔ _
    simp [child_in]
  | dirpath, .cons n s rest, r => by
    show r ∈ (if is_system_or_hidden (os_path_join dirpath n) then []
        else get_files_in_folder (os_path_join dirpath n) s) ++ scan_dirs dirpath rest ↔ _
    rw [List.mem_append]
    constructor
    · intro h
      rcases h with h | h
      · by_cases hh : is_system_or_hidden (os_path_join dirpath n) = true
        · rw [if_pos hh] at h
          simp at h
        · rw [if_neg hh] at h
          exact ⟨n, s, Or.inl ⟨rfl, rfl⟩, by simpa using hh,
            (mem_scan_iff_reports (os_path_join dirpath n) s r).mp h⟩
      · obtain ⟨d, sub, hchild, hh, hrep⟩ := (mem_scan_dirs_iff dirpath rest r).mp h
        exact ⟨d, sub, Or.inr hchild, hh, hrep⟩
    · intro h
      obtain ⟨d, sub, hchild, hh, hrep⟩ := h
      rcases hchild with ⟨rfl, rfl⟩ | hchild
      · left
        rw [if_neg (by simp [hh])]
        exact (mem_scan_iff_reports (os_path_join dirpath d) sub r).mpr hrep
      · right
        exact (mem_scan_dirs_iff dirpath rest r).mpr ⟨d, sub, hchild, hh, hrep⟩
end

/-- C7: the scanner never visits or reports anything inside a hidden/system
subdirectory (every reported path is a non-hidden file reached exclusively
through non-hidden directories — and conversely all such files are
reported, so traversal continues past skipped entries), and a root with
nothing processable yields the empty list, not an error. -/
theorem claim_c7_scan :
    (∀ (dirpath : PyStr) (t : DirTree) (r : PyStr),
      r ∈ get_files_in_folder dirpath t ↔ Reports dirpath t r) ∧
    (∀ dirpath : PyStr, get_files_in_folder dirpath (DirTree.node DirList.nil []) = []) :=
  ⟨mem_scan_iff_reports, fun _ => rfl⟩

/-- Concrete tree for exercising the scanner: a hidden subdirectory with a
file inside it, a visible subdirectory with a file, a visible root file and
a hidden root file. -/
def c7_example_tree : DirTree :=
  DirTree.node
    (DirList.cons ((".hid").data) (DirTree.node DirList.nil [("x.txt").data])
      (DirList.cons (("ok").data) (DirTree.node DirList.nil [("y.txt").data])
        DirList.nil))
    [("a.txt").data, (".b").data]

theorem claim_c7_scan_witness :
    os_path_join (os_path_join (("root").data) (("ok").data)) (("y.txt").data) ∈
      get_files_in_folder (("root").data) c7_example_tree ∧
    get_files_in_folder (("root").data) (DirTree.node DirList.nil []) = [] :=
  ⟨(claim_c7_scan.1 (("root").data) c7_example_tree
      (os_path_join (os_path_join (("root").data) (("ok").data)) (("y.txt").data))).mpr
     (Reports.dir (("root").data) _ _ (("ok").data)
        (DirTree.node DirList.nil [("y.txt").data]) _
        (by unfold child_in; exact Or.inr (Or.inl ⟨rfl, rfl⟩))
        (by decide)
        (Reports.file (os_path_join (("root").data) (("ok").data)) DirList.nil
          [("y.txt").data] (("y.txt").data) (by decide) (by decide))),
   claim_c7_scan.2 (("root").data)⟩

-- --- Empty-folder pruning (src/FileSorter.py lines 265-299) ---

/-- Emptiness of a subdirectory listing. -/
def dirlist_is_empty : DirList → Bool
  | .nil => true
  | .cons _ _ _ => false

/-- Emptiness of a directory (`not os.listdir(dirpath)`): no subdirectories
and no files. -/
def tree_is_empty : DirTree → Bool
  | .node dirs files => dirlist_is_empty dirs && files.isEmpty

mutual
/-- Embedding of the body of `delete_empty_folders_recursively`
(src/FileSorter.py lines 273-292) as a transformation of the directory
tree: `os.walk(..., topdown=False)` visits children before parents and the
emptiness test uses a live `os.listdir`, so each directory is pruned after
its subtrees have been resolved; directories whose normalized path is the
organize root or one of the protected category paths are skipped (kept),
every other directory that is empty at visit time is removed (`none`). -/
def prune_tree (main_root : PyStr) (protected_paths : Finset PyStr) :
    PyStr → DirTree → Option DirTree
  | dirpath, .node dirs files =>
    if os_path_normpath dirpath = os_path_normpath main_root ∨
        os_path_normpath dirpath ∈ protected_paths then
      some (.node (prune_dirs main_root protected_paths dirpath dirs) files)
    else if dirlist_is_empty (prune_dirs main_root protected_paths dirpath dirs) ∧
        files = [] then none
    else some (.node (prune_dirs main_root protected_paths dirpath dirs) files)
/-- Bottom-up pruning of each subdirectory of a listing, dropping the ones
that get deleted. -/
def prune_dirs (main_root : PyStr) (protected_paths : Finset PyStr) :
    PyStr → DirList → DirList
  | _, .nil => .nil
  | dirpath, .cons d sub rest =>
    match prune_tree main_root protected_paths (os_path_join dirpath d) sub with
    | some sub2 => .cons d sub2 (prune_dirs main_root protected_paths dirpath rest)
    | none => prune_dirs main_root protected_paths dirpath rest
end

/-- Embedding of `delete_empty_folders_recursively` (src/FileSorter.py
lines 265-299): the protected set is the organize root plus the normalized
paths `main_organize_root/name` of the category folders used in this run. -/
def delete_empty_folders_recursively (path_to_check main_organize_root : PyStr)
    (actual_created_category_folder_names : Finset PyStr) (t : DirTree) :
    Option DirTree :=
  prune_tree main_organize_root
    (actual_created_category_folder_names.image
      (fun name => os_path_normpath (os_path_join main_organize_root name)))
    path_to_check t

theorem prune_tree_node (main_root : PyStr) (prot : Finset PyStr) (dirpath : PyStr)
    (dirs : DirList) (files : List PyStr) :
    prune_tree main_root prot dirpath (.node dirs files) =
      (if os_path_normpath dirpath = os_path_normpath main_root ∨
          os_path_normpath dirpath ∈ prot then
        some (.node (prune_dirs main_root prot dirpath dirs) files)
      else if dirlist_is_empty (prune_dirs main_root prot dirpath dirs) ∧ files = [] then
        none
      else some (.node (prune_dirs main_root prot dirpath dirs) files)) := rfl

theorem prune_dirs_cons (main_root : PyStr) (prot : Finset PyStr) (dirpath : PyStr)
    (d : PyStr) (sub : DirTree) (rest : DirList) :
    prune_dirs main_root prot dirpath (.cons d sub rest) =
      (match prune_tree main_root prot (os_path_join dirpath d) sub with
      | some sub2 => .cons d sub2 (prune_dirs main_root prot dirpath rest)
      | none => prune_dirs main_root prot dirpath rest) := rfl

theorem prune_tree_protected_isSome (main_root : PyStr) (prot : Finset PyStr)
    (dirpath : PyStr) (t : DirTree)
    (h : os_path_normpath dirpath = os_path_normpath main_root ∨
      os_path_normpath dirpath ∈ prot) :
    (prune_tree main_root prot dirpath t).isSome = true := by
  cases t with
  | node dirs files =>
    rw [prune_tree_node, if_pos h]
    rfl

theorem prune_tree_some_shape (main_root : PyStr) (prot : Finset PyStr)
    (dirpath : PyStr) (dirs : DirList) (files : List PyStr) (t' : DirTree)
    (h : prune_tree main_root prot dirpath (.node dirs files) = some t') :
    t' = .node (prune_dirs main_root prot dirpath dirs) files ∧
    ((os_path_normpath dirpath = os_path_normpath main_root ∨
        os_path_normpath dirpath ∈ prot) ∨
      tree_is_empty t' = false) := by
  rw [prune_tree_node] at h
  split_ifs at h with h1 h2
  · exact ⟨(Option.some.inj h).symm, Or.inl h1⟩
  · have heq : t' = DirTree.node (prune_dirs main_root prot dirpath dirs) files :=
      (Option.some.inj h).symm
    subst heq
    refine ⟨rfl, Or.inr ?_⟩
    show (dirlist_is_empty (prune_dirs main_root prot dirpath dirs) &&
      files.isEmpty) = false
    rcases not_and_or.mp h2 with hc | hc
    · have hcf : dirlist_is_empty (prune_dirs main_root prot dirpath dirs) = false := by
        simpa using hc
      rw [hcf, Bool.false_and]
    · have hcf : files.isEmpty = false := by
        simp only [List.isEmpty_eq_false]
        exact hc
      rw [hcf, Bool.and_false]

mutual
/-- Postcondition of the pruning sweep on a directory tree: every remaining
subdirectory, at any depth, is either protected (the organize root or a
protected category path, by normalized path) or non-empty. -/
def tree_good (main_root : PyStr) (prot : Finset PyStr) : PyStr → DirTree → Bool
  | dirpath, .node dirs _ => dirs_good main_root prot dirpath dirs
/-- Listing-wise form of `tree_good`. -/
def dirs_good (main_root : PyStr) (prot : Finset PyStr) : PyStr → DirList → Bool
  | _, .nil => true
  | dirpath, .cons d sub rest =>
    (decide (os_path_normpath (os_path_join dirpath d) = os_path_normpath main_root ∨
        os_path_normpath (os_path_join dirpath d) ∈ prot) || !(tree_is_empty sub))
    && tree_good main_root prot (os_path_join dirpath d) sub
    && dirs_good main_root prot dirpath rest
end

mutual
theorem prune_tree_good : ∀ (main_root : PyStr) (prot : Finset PyStr)
    (dirpath : PyStr) (t : DirTree) (t' : DirTree),
    prune_tree main_root prot dirpath t = some t' →
    tree_good main_root prot dirpath t' = true
  | main_root, prot, dirpath, .node dirs files, t', h => by
    obtain ⟨rfl, -⟩ := prune_tree_some_shape main_root prot dirpath dirs files t' h
    show dirs_good main_root prot dirpath (prune_dirs main_root prot dirpath dirs) = true
    exact prune_dirs_good main_root prot dirpath dirs
theorem prune_dirs_good : ∀ (main_root : PyStr) (prot : Finset PyStr)
    (dirpath : PyStr) (l : DirList),
    dirs_good main_root prot dirpath (prune_dirs main_root prot dirpath l) = true
  | main_root, prot, dirpath, .nil => rfl
  | main_root, prot, dirpath, .cons d sub rest => by
    rw [prune_dirs_cons]
    cases hps : prune_tree main_root prot (os_path_join dirpath d) sub with
    | none => exact prune_dirs_good main_root prot dirpath rest
    | some s2 =>
      show ((decide _ || !(tree_is_empty s2)) &&
        tree_good main_root prot (os_path_join dirpath d) s2 &&
        dirs_good main_root prot dirpath (prune_dirs main_root prot dirpath rest)) = true
      rw [Bool.and_eq_true, Bool.and_eq_true]
      refine ⟨⟨?_, prune_tree_good main_root prot (os_path_join dirpath d) sub s2 hps⟩,
        prune_dirs_good main_root prot dirpath rest⟩
      cases sub with
      | node ds fs =>
        obtain ⟨-, hor⟩ := prune_tree_some_shape main_root prot (os_path_join dirpath d)
          ds fs s2 hps
        rcases hor with hprot | hempty
        · rw [Bool.or_eq_true]
          left
          exact decide_eq_true hprot
        · rw [Bool.or_eq_true]
          right
          rw [hempty]
          rfl
end

mutual
/-- All file paths of a tree, each joined onto the path of its directory. -/
def tree_file_paths : PyStr → DirTree → List PyStr
  | dirpath, .node dirs files =>
    files.map (os_path_join dirpath) ++ dirs_file_paths dirpath dirs
/-- Listing-wise form of `tree_file_paths`. -/
def dirs_file_paths : PyStr → DirList → List PyStr
  | _, .nil => []
  | dirpath, .cons d sub rest =>
    tree_file_paths (os_path_join dirpath d) sub ++ dirs_file_paths dirpath rest
end

theorem dirlist_is_empty_eq_nil (l : DirList) (h : dirlist_is_empty l = true) :
    l = DirList.nil := by
  cases l with
  | nil => rfl
  | cons d sub rest => simp [dirlist_is_empty] at h

mutual
theorem prune_tree_files : ∀ (main_root : PyStr) (prot : Finset PyStr)
    (dirpath : PyStr) (t : DirTree) (t' : DirTree),
    prune_tree main_root prot dirpath t = some t' →
    tree_file_paths dirpath t' = tree_file_paths dirpath t
  | main_root, prot, dirpath, .node dirs files, t', h => by
    obtain ⟨rfl, -⟩ := prune_tree_some_shape main_root prot dirpath dirs files t' h
    show files.map (os_path_join dirpath) ++
        dirs_file_paths dirpath (prune_dirs main_root prot dirpath dirs) =
      files.map (os_path_join dirpath) ++ dirs_file_paths dirpath dirs
    rw [prune_dirs_files main_root prot dirpath dirs]
theorem prune_tree_files_none : ∀ (main_root : PyStr) (prot : Finset PyStr)
    (dirpath : PyStr) (t : DirTree),
    prune_tree main_root prot dirpath t = none →
    tree_file_paths dirpath t = []
  | main_root, prot, dirpath, .node dirs files, h => by
    rw [prune_tree_node] at h
    split_ifs at h with h1 h2
    obtain ⟨hde, hfe⟩ := h2
    subst hfe
    show List.map (os_path_join dirpath) [] ++ dirs_file_paths dirpath dirs = []
    rw [List.map_nil, List.nil_append, ← prune_dirs_files main_root prot dirpath dirs,
      dirlist_is_empty_eq_nil _ hde]
    rfl
theorem prune_dirs_files : ∀ (main_root : PyStr) (prot : Finset PyStr)
    (dirpath : PyStr) (l : DirList),
    dirs_file_paths dirpath (prune_dirs main_root prot dirpath l) =
      dirs_file_paths dirpath l
  | main_root, prot, dirpath, .nil => rfl
  | main_root, prot, dirpath, .cons d sub rest => by
    rw [prune_dirs_cons]
    cases hps : prune_tree main_root prot (os_path_join dirpath d) sub with
    | some s2 =>
      show tree_file_paths (os_path_join dirpath d) s2 ++
          dirs_file_paths dirpath (prune_dirs main_root prot dirpath rest) =
        tree_file_paths (os_path_join dirpath d) sub ++ dirs_file_paths dirpath rest
      rw [prune_tree_files main_root prot (os_path_join dirpath d) sub s2 hps,
        prune_dirs_files main_root prot dirpath rest]
    | none =>
      show dirs_file_paths dirpath (prune_dirs main_root prot dirpath rest) =
        tree_file_paths (os_path_join dirpath d) sub ++ dirs_file_paths dirpath rest
      rw [prune_tree_files_none main_root prot (os_path_join dirpath d) sub hps,
        List.nil_append, prune_dirs_files main_root prot dirpath rest]
end

theorem child_survives : ∀ (main_root : PyStr) (prot : Finset PyStr) (dirpath : PyStr)
    (l : DirList) (d : PyStr) (sub : DirTree),
    child_in d sub l →
    (prune_tree main_root prot (os_path_join dirpath d) sub).isSome = true →
    ∃ sub2, child_in d sub2 (prune_dirs main_root prot dirpath l)
  | main_root, prot, dirpath, .nil, d, sub, h, _ => absurd h (fun hh => hh)
  | main_root, prot, dirpath, .cons n s rest, d, sub, h, hsome => by
    rcases h with ⟨rfl, rfl⟩ | h2
    · obtain ⟨sub2, hsub2⟩ := Option.isSome_iff_exists.mp hsome
      refine ⟨sub2, ?_⟩
      rw [prune_dirs_cons, hsub2]
      exact Or.inl ⟨rfl, rfl⟩
    · obtain ⟨sub2, hsub2⟩ :=
        child_survives main_root prot dirpath rest d sub h2 hsome
      rw [prune_dirs_cons]
      cases hps : prune_tree main_root prot (os_path_join dirpath n) s with
      | some s2 => exact ⟨sub2, Or.inr hsub2⟩
      | none => exact ⟨sub2, hsub2⟩

/-- C1: the pruning pass of a run (scan root equal to the organize root)
never deletes the organize root; a category folder directly under the root
whose name is in the protected set survives (even when empty); no file
anywhere in the tree is removed or moved; and every other nested directory
that is empty when visited is deleted — after the pass no unprotected empty
directory remains, including directories that became empty only because
their children were deleted earlier in the same bottom-up pass. -/
theorem claim_c1_prune (main_root : PyStr) (names : Finset PyStr) (t : DirTree) :
    (delete_empty_folders_recursively main_root main_root names t).isSome = true ∧
    (∀ t', delete_empty_folders_recursively main_root main_root names t = some t' →
      tree_good main_root
        (names.image (fun name => os_path_normpath (os_path_join main_root name)))
        main_root t' = true ∧
      tree_file_paths main_root t' = tree_file_paths main_root t ∧
      (∀ d sub, child_in d sub (tree_dirs t) →
        os_path_normpath (os_path_join main_root d) ∈
          names.image (fun name => os_path_normpath (os_path_join main_root name)) →
        ∃ sub2, child_in d sub2 (tree_dirs t'))) := by
  constructor
  · exact prune_tree_protected_isSome main_root _ main_root t (Or.inl rfl)
  · intro t' ht'
    refine ⟨prune_tree_good main_root _ main_root t t' ht',
      prune_tree_files main_root _ main_root t t' ht', ?_⟩
    intro d sub hchild hprot
    cases t with
    | node dirs files =>
      obtain ⟨rfl, -⟩ := prune_tree_some_shape main_root _ main_root dirs files t' ht'
      exact child_survives main_root _ main_root dirs d sub hchild
        (prune_tree_protected_isSome main_root _ _ sub (Or.inr hprot))

/-- Concrete tree for exercising the pruning pass: an empty protected
category folder `CAT`, a folder `a` containing only the empty folder `b`
(so `a` becomes empty mid-pass), and a root file. -/
def c1_example_tree : DirTree :=
  DirTree.node
    (DirList.cons (("CAT").data) (DirTree.node DirList.nil [])
      (DirList.cons (("a").data)
        (DirTree.node (DirList.cons (("b").data) (DirTree.node DirList.nil []) DirList.nil)
          [])
        DirList.nil))
    [("keep.txt").data]

/-- The tree left by pruning `c1_example_tree`: `b` was deleted, `a` (then
empty) was deleted in the same pass, the protected empty `CAT` and the root
file survive. -/
def c1_example_result : DirTree :=
  DirTree.node (DirList.cons (("CAT").data) (DirTree.node DirList.nil []) DirList.nil)
    [("keep.txt").data]

theorem claim_c1_prune_witness :
    (delete_empty_folders_recursively (("base").data) (("base").data)
      ({("CAT").data} : Finset PyStr) c1_example_tree).isSome = true ∧
    tree_good (("base").data)
      (({("CAT").data} : Finset PyStr).image
        (fun name => os_path_normpath (os_path_join (("base").data) name)))
      (("base").data) c1_example_result = true ∧
    tree_file_paths (("base").data) c1_example_result =
      tree_file_paths (("base").data) c1_example_tree ∧
    (∃ sub2, child_in (("CAT").data) sub2 (tree_dirs c1_example_result)) := by
  have h := claim_c1_prune (("base").data) ({("CAT").data} : Finset PyStr) c1_example_tree
  have h2 := h.2 c1_example_result rfl
  refine ⟨h.1, h2.1, h2.2.1, ?_⟩
  exact h2.2.2 (("CAT").data) (DirTree.node DirList.nil [])
    (Or.inl ⟨rfl, rfl⟩) (by decide)

-- --- Full organization run (src/FileSorter.py lines 535-644) ---

/-- Embedding of `get_forbidden_paths` (src/FileSorter.py lines 124-148):
the platform-specific candidate list is assembled from the environment
(abstracted here as `raw`), falsy entries are dropped, the rest are
normalized, and only paths existing on the machine (an abstract predicate
of the environment) are kept. -/
def get_forbidden_paths (raw : List PyStr) (exists_on_disk : PyStr → Bool) :
    List PyStr :=
  ((raw.filter (fun p => !(p == []))).map os_path_normpath).filter exists_on_disk

mutual
/-- Total number of entries of a tree (used as probe fuel in the tree
model's collision loop). -/
def tree_size : DirTree → Nat
  | .node dirs files => 1 + files.length + dirlist_size dirs
/-- Listing-wise form of `tree_size`. -/
def dirlist_size : DirList → Nat
  | .nil => 0
  | .cons _ sub rest => 1 + tree_size sub + dirlist_size rest
end

/-- Lookup of a named subdirectory in a listing. -/
def dirlist_find : DirList → PyStr → Option DirTree
  | .nil, _ => none
  | .cons n sub rest, d => if n = d then some sub else dirlist_find rest d

/-- Replacement of a named subdirectory's subtree in a listing. -/
def dirlist_update : DirList → PyStr → (DirTree → DirTree) → DirList
  | .nil, _, _ => .nil
  | .cons n sub rest, d, f =>
    if n = d then .cons n (f sub) rest else .cons n sub (dirlist_update rest d f)

/-- Append of a new subdirectory at the end of a listing. -/
def dirlist_append : DirList → PyStr → DirTree → DirList
  | .nil, n, s => .cons n s .nil
  | .cons a b rest, n, s => .cons a b (dirlist_append rest n s)

/-- Modification of the directory at a component path (identity when the
path does not resolve). -/
def tree_modify_at : DirTree → List PyStr → (DirTree → DirTree) → DirTree
  | t, [], f => f t
  | .node dirs files, d :: rest, f =>
    .node (dirlist_update dirs d (fun sub => tree_modify_at sub rest f)) files

/-- Navigation to the directory at a component path. -/
def tree_get_at : DirTree → List PyStr → Option DirTree
  | t, [] => some t
  | .node dirs _, d :: rest =>
    match dirlist_find dirs d with
    | some sub => tree_get_at sub rest
    | none => none

/-- Splitting of an absolute path strictly below `root` into its relative
components. -/
def strip_root (root p : PyStr) : Option (List PyStr) :=
  if (root ++ ['/']).isPrefixOf p then some (py_split '/' (p.drop (root.length + 1)))
  else none

/-- Existence test over the tree world (`os.path.exists` for paths at or
below the organize root). -/
def tree_exists_abs (root : PyStr) (w : DirTree) (p : PyStr) : Bool :=
  if p = root then true
  else
    match strip_root root p with
    | none => false
    | some comps =>
      match comps.reverse with
      | [] => false
      | last :: revInit =>
        match tree_get_at w revInit.reverse with
        | some sub =>
          (dirlist_find (tree_dirs sub) last).isSome || (tree_files sub).contains last
        | none => false

/-- Addition of a file into the directory at a component path. -/
def tree_add_file (t : DirTree) (comps : List PyStr) (fname : PyStr) : DirTree :=
  tree_modify_at t comps (fun sub => .node (tree_dirs sub) (tree_files sub ++ [fname]))

/-- Removal of a file from the directory at a component path. -/
def tree_remove_file (t : DirTree) (comps : List PyStr) (fname : PyStr) : DirTree :=
  tree_modify_at t comps
    (fun sub => .node (tree_dirs sub) ((tree_files sub).filter (fun g => !(g == fname))))

/-- Embedding of `create_folder_if_not_exists_gui` (src/FileSorter.py lines
213-222) for the run's call sites, where the subfolder is a category name
directly under the organize root: idempotent creation of a root child. -/
def create_folder_if_not_exists_gui (t : DirTree) (sub_folder_name : PyStr) : DirTree :=
  match t with
  | .node dirs files =>
    if (dirlist_find dirs sub_folder_name).isSome then t
    else .node (dirlist_append dirs sub_folder_name (.node .nil [])) files

/-- The collision-probe loop of `move_file_to_folder_gui` evaluated against
the tree world (same loop as `collision_probe`, with existence read from
the tree). -/
def tree_collision_probe (root : PyStr) (w : DirTree) (folder np ep : PyStr) :
    Nat → Nat → Nat
  | count, 0 => count
  | count, fuel + 1 =>
    if tree_exists_abs root w
        (os_path_join folder (np ++ '_' :: (nat_digits count ++ ep))) then
      tree_collision_probe root w folder np ep (count + 1) fuel
    else count

/-- `move_file_to_folder_gui` (src/FileSorter.py lines 225-262) evaluated
against the tree world of a run: the same already-in-place check and
collision probing as the flat-model `move_file_to_folder_gui`, with the
move realised as removing the source file and adding the resolved
destination file under the category folder. -/
def move_file_tree (root : PyStr) (w : DirTree)
    (full_source_file_path original_target_dir destination_category_name : PyStr) :
    DirTree :=
  if os_path_normpath (os_path_dirname full_source_file_path) =
      os_path_normpath (os_path_join original_target_dir destination_category_name) ∧
    os_path_normpath full_source_file_path =
      os_path_normpath (os_path_join
        (os_path_join original_target_dir destination_category_name)
        (os_path_basename full_source_file_path)) then w
  else
    let file_name_only := os_path_basename full_source_file_path
    let final_destination_folder :=
      os_path_join original_target_dir destination_category_name
    let final_name :=
      if tree_exists_abs root w (os_path_join final_destination_folder file_name_only) then
        (os_path_splitext file_name_only).1 ++ '_' ::
          (nat_digits (tree_collision_probe root w final_destination_folder
              (os_path_splitext file_name_only).1 (os_path_splitext file_name_only).2
              1 (tree_size w + 1)) ++
            (os_path_splitext file_name_only).2)
      else file_name_only
    let w2 :=
      match strip_root root full_source_file_path with
      | some comps =>
        match comps.reverse with
        | [] => w
        | last :: revInit => tree_remove_file w revInit.reverse last
      | none => w
    tree_add_file w2 [destination_category_name] final_name

/-- One iteration of the Phase 2 loop of `start_organization_command`
(src/FileSorter.py lines 569-623): classify the file by its extension key;
skip it when no category matches or when it already lies in its category
folder; otherwise record the category as used, create the category folder,
and move the file. -/
def process_one_file (target_dir : PyStr) (table : CatTable)
    (state : DirTree × Finset PyStr) (full_file_path : PyStr) :
    DirTree × Finset PyStr :=
  match classify_file (os_path_basename full_file_path) table with
  | none => state
  | some cat =>
    if os_path_normpath (os_path_dirname full_file_path) =
        os_path_normpath (os_path_join target_dir cat) then state
    else
      (move_file_tree target_dir (create_folder_if_not_exists_gui state.1 cat)
        full_file_path target_dir cat,
       insert cat state.2)

/-- Outcome of one organization run. -/
inductive RunOutcome where
  | invalidTarget
  | protectedTarget (forbidden_path : PyStr)
  | finishedNoFiles
  | finished (total : Nat)

/-- Validation aborts are the two outcomes that stop the run before any
phase executes. -/
def RunOutcome.isValidationAbort : RunOutcome → Bool
  | RunOutcome.invalidTarget => true
  | RunOutcome.protectedTarget _ => true
  | _ => false

/-- Embedding of `start_organization_command` (src/FileSorter.py lines
535-644) as a function from the run inputs to the outcome and the directory
tree after the run.  `target_is_valid_dir` abstracts the
`os.path.isdir`/empty-selection test of line 539; the tree `world` is the
state of the chosen target directory.  Phase 1 scans, Phase 2 folds the
per-file processing over the scanned list, Phase 3 prunes empty folders
(the organize root itself is protected, so `getD` never actually falls
back). -/
def start_organization_command (target_is_valid_dir : Bool) (forbidden : List PyStr)
    (target_dir : PyStr) (table : CatTable) (world : DirTree) :
    RunOutcome × DirTree :=
  if ¬ target_is_valid_dir then (RunOutcome.invalidTarget, world)
  else
    match forbidden.find? (fun forbidden_path =>
        (os_path_normpath target_dir == forbidden_path) ||
        (forbidden_path ++ ['/']).isPrefixOf (os_path_normpath target_dir ++ ['/'])) with
    | some f => (RunOutcome.protectedTarget f, world)
    | none =>
      let files_to_process := get_files_in_folder target_dir world
      if files_to_process = [] then (RunOutcome.finishedNoFiles, world)
      else
        let st := files_to_process.foldl (process_one_file target_dir table)
          (world, (∅ : Finset PyStr))
        ((RunOutcome.finished files_to_process.length),
          (delete_empty_folders_recursively target_dir target_dir st.2 st.1).getD st.1)

/-- C2: when the normalized target root equals one of the forbidden
(protected) paths or is a descendant of one — the path-separator-aware
prefix test of src/FileSorter.py line 545 — the run aborts with a
validation outcome and the directory tree is completely untouched: no
scan-phase work, no folder creation, no move and no deletion happens. -/
theorem claim_c2_protected_root_aborts (target_is_valid_dir : Bool)
    (raw : List PyStr) (exists_on_disk : PyStr → Bool) (target_dir : PyStr)
    (table : CatTable) (world : DirTree)
    (hprot : ∃ f ∈ get_forbidden_paths raw exists_on_disk,
      os_path_normpath target_dir = f ∨
      List.IsPrefix (f ++ ['/']) (os_path_normpath target_dir ++ ['/'])) :
    (start_organization_command target_is_valid_dir
      (get_forbidden_paths raw exists_on_disk) target_dir table world).2 = world ∧
    ((start_organization_command target_is_valid_dir
      (get_forbidden_paths raw exists_on_disk) target_dir table world).1).isValidationAbort =
      true := by
  cases target_is_valid_dir with
  | false => exact ⟨rfl, rfl⟩
  | true =>
    obtain ⟨f, hf, hor⟩ := hprot
    have hp : ((os_path_normpath target_dir == f) ||
        (f ++ ['/']).isPrefixOf (os_path_normpath target_dir ++ ['/'])) = true := by
      rcases hor with he | hpre
      · rw [Bool.or_eq_true]
        left
        exact beq_iff_eq.mpr he
      · rw [Bool.or_eq_true]
        right
        exact List.isPrefixOf_iff_prefix.mpr hpre
    have hsome : ((get_forbidden_paths raw exists_on_disk).find? (fun forbidden_path =>
        (os_path_normpath target_dir == forbidden_path) ||
        (forbidden_path ++ ['/']).isPrefixOf
          (os_path_normpath target_dir ++ ['/']))).isSome :=
      List.find?_isSome.mpr ⟨f, hf, hp⟩
    obtain ⟨f0, hf0⟩ := Option.isSome_iff_exists.mp hsome
    unfold start_organization_command
    rw [if_neg (by simp), hf0]
    exact ⟨rfl, rfl⟩

theorem claim_c2_protected_root_aborts_witness :
    (start_organization_command true
      (get_forbidden_paths [("/etc").data] (fun _ => true)) (("/etc/stuff").data) []
      (DirTree.node DirList.nil [("a.txt").data])).2 =
      DirTree.node DirList.nil [("a.txt").data] ∧
    ((start_organization_command true
      (get_forbidden_paths [("/etc").data] (fun _ => true)) (("/etc/stuff").data) []
      (DirTree.node DirList.nil [("a.txt").data])).1).isValidationAbort = true :=
  claim_c2_protected_root_aborts true [("/etc").data] (fun _ => true)
    (("/etc/stuff").data) [] (DirTree.node DirList.nil [("a.txt").data])
    (by decide)
